import Mathlib

/-!
Verification of the deliberation engine in `src/app/api/generate/route.ts`
(the rank-and-justify route: `POST`, `parseModelResponse`,
`averageVectors`, `computeAverageVectors`).

Shallow embedding conventions:
* JS numbers are modelled as exact rationals `ℚ`; `NaN` is modelled as
  `Option.none` where a computation can produce it (`Number(...)`,
  `parseInt`).
* Strings are Lean `String`s; the scanning helpers work on `List Char`.
* The external LLM connectors, the justifier connector and the factory
  are modelled by an explicit environment (`Env`); fallible calls return
  `Except`.
* The engine run additionally records a trace of connector invocations,
  which models "network activity" for the temporal claims.
-/

/-- JavaScript whitespace (the `\s` character class / `String.trim`),
restricted to the characters that can appear in our texts. -/
def jsWs (c : Char) : Bool :=
  c = ' ' || c = '\t' || c = '\n' || c = '\r' || c = '\x0b' || c = '\x0c' || c = ' '

/-- JSON whitespace accepted by `JSON.parse` between tokens. -/
def jsonWs (c : Char) : Bool :=
  c = ' ' || c = '\t' || c = '\n' || c = '\r'

/-- Model of `String.prototype.trim` on a character list. -/
def jsTrim (l : List Char) : List Char :=
  ((l.dropWhile jsWs).reverse.dropWhile jsWs).reverse

/-- JavaScript values that can flow through `parseModelResponse`:
JSON values plus `NaN` (produced by `parseInt` in the legacy strategy). -/
inductive JsVal where
  | null
  | bool (b : Bool)
  | num (q : ℚ)
  | nan
  | str (s : String)
  | arr (elems : List JsVal)
  | obj (fields : List (String × JsVal))

/-- Hexadecimal digit test for JSON unicode escapes. -/
def isHexChar (c : Char) : Bool :=
  c.isDigit || ('a' ≤ c && c ≤ 'f') || ('A' ≤ c && c ≤ 'F')

/-- A natural number as a rational, built structurally so that concrete
evaluation reduces without the numeral cast chain. -/
def qOfNat (n : Nat) : ℚ :=
  ⟨Int.ofNat n, 1, Nat.one_ne_zero, Nat.coprime_one_right _⟩

/-- An integer as a rational, built structurally. -/
def qOfInt (n : Int) : ℚ :=
  ⟨n, 1, Nat.one_ne_zero, Nat.coprime_one_right _⟩

/-- `qOfNat` agrees with the natural-number cast. -/
theorem qOfNat_eq_cast (n : Nat) : qOfNat n = (n : ℚ) := rfl

/-- `qOfInt` agrees with the integer cast. -/
theorem qOfInt_eq_cast (n : Int) : qOfInt n = (n : ℚ) := rfl

/-- Rationals with equal numerator and denominator are equal. -/
theorem rat_eq_of_parts : ∀ {a b : ℚ}, a.num = b.num → a.den = b.den → a = b
  | ⟨_, _, _, _⟩, ⟨_, _, _, _⟩, rfl, rfl => rfl

/-- A decidable-equality instance for `ℚ` that compares the numerator
and denominator directly, so that concrete evaluation reduces through
the accelerated integer comparisons. -/
instance (priority := 10000) qDecEq : DecidableEq ℚ := fun a b =>
  if h : a.num = b.num ∧ a.den = b.den then
    isTrue (rat_eq_of_parts h.1 h.2)
  else
    isFalse (fun he => h (by subst he; exact ⟨rfl, rfl⟩))

/-- Boolean equality on rationals through numerator and denominator,
which evaluates through the accelerated integer primitives. -/
def qBeq (a b : ℚ) : Bool :=
  a.num == b.num && a.den == b.den

/-- `qBeq` decides equality. -/
theorem qBeq_iff {a b : ℚ} : qBeq a b = true ↔ a = b := by
  simp only [qBeq, Bool.and_eq_true, beq_iff_eq]
  exact ⟨fun h => rat_eq_of_parts h.1 h.2, fun h => by subst h; exact ⟨rfl, rfl⟩⟩

/-- Boolean strict order on rationals by cross multiplication. -/
def qBlt (a b : ℚ) : Bool :=
  (b.num * (a.den : Int) - a.num * (b.den : Int)).toNat != 0

/-- `qBlt` decides the strict order. -/
theorem qBlt_iff {a b : ℚ} : qBlt a b = true ↔ a < b := by
  simp only [qBlt, bne_iff_ne, ne_eq, Int.toNat_eq_zero, not_le]
  rw [Rat.lt_def]
  omega

/-- Boolean non-strict order on rationals. -/
def qBle (a b : ℚ) : Bool :=
  ! qBlt b a

/-- `qBle` decides the non-strict order. -/
theorem qBle_iff {a b : ℚ} : qBle a b = true ↔ a ≤ b := by
  simp only [qBle, Bool.not_eq_true']
  rw [← Bool.not_eq_true, not_iff_comm, qBlt_iff, not_le]

/-- Boolean equality on `Option` from an element comparator. -/
def optBeq (f : α → α → Bool) : Option α → Option α → Bool
  | none, none => true
  | some a, some b => f a b
  | _, _ => false

/-- `optBeq` decides equality when the comparator does. -/
theorem optBeq_iff {f : α → α → Bool} (hf : ∀ x y, f x y = true ↔ x = y) :
    ∀ a b, optBeq f a b = true ↔ a = b
  | none, none => by simp [optBeq]
  | none, some b => by simp [optBeq]
  | some a, none => by simp [optBeq]
  | some a, some b => by simp [optBeq, hf]

/-- Boolean equality on lists from an element comparator. -/
def listBeqF (f : α → α → Bool) : List α → List α → Bool
  | [], [] => true
  | a :: as, b :: bs => f a b && listBeqF f as bs
  | _, _ => false

/-- `listBeqF` decides equality when the comparator does. -/
theorem listBeqF_iff {f : α → α → Bool} (hf : ∀ x y, f x y = true ↔ x = y) :
    ∀ as bs, listBeqF f as bs = true ↔ as = bs
  | [], [] => by simp [listBeqF]
  | [], _ :: _ => by simp [listBeqF]
  | _ :: _, [] => by simp [listBeqF]
  | a :: as, b :: bs => by
    simp [listBeqF, hf, Bool.and_eq_true, listBeqF_iff hf as bs]

/-- Numeric value of a digit list (most significant first). -/
def digitsToNat (l : List Char) : Nat :=
  l.foldl (fun acc c => 10 * acc + (c.toNat - '0'.toNat)) 0

/-- Parse the escape following a backslash in a JSON string; hex escapes
outside the valid scalar range degrade to NUL (JS would keep a lone
surrogate code unit, which Lean's `Char` cannot represent). -/
def jsonEscChar (e : Char) (rest : List Char) : Option (Char × List Char) :=
  if e = '"' then some ('"', rest)
  else if e = '\\' then some ('\\', rest)
  else if e = '/' then some ('/', rest)
  else if e = 'b' then some ('\x08', rest)
  else if e = 'f' then some ('\x0c', rest)
  else if e = 'n' then some ('\n', rest)
  else if e = 'r' then some ('\r', rest)
  else if e = 't' then some ('\t', rest)
  else if e = 'u' then
    match rest with
    | h1 :: h2 :: h3 :: h4 :: rest' =>
      if isHexChar h1 && isHexChar h2 && isHexChar h3 && isHexChar h4 then
        let hv : Char → Nat := fun c =>
          if c.isDigit then c.toNat - '0'.toNat
          else if 'a' ≤ c ∧ c ≤ 'f' then c.toNat - 'a'.toNat + 10
          else c.toNat - 'A'.toNat + 10
        some (Char.ofNat (((hv h1 * 16 + hv h2) * 16 + hv h3) * 16 + hv h4), rest')
      else none
    | _ => none
  else none

/-- Parse the body of a JSON string (the opening quote is already
consumed); `acc` holds the decoded characters in reverse; returns the
decoded characters and the remaining input. -/
def parseJsonStrBody : Nat → List Char → List Char → Option (List Char × List Char)
  | 0, _, _ => none
  | Nat.succ fuel, acc, l =>
    match l with
    | [] => none
    | '"' :: rest => some (acc.reverse, rest)
    | '\\' :: e :: rest =>
      match jsonEscChar e rest with
      | some (c, rest') => parseJsonStrBody fuel (c :: acc) rest'
      | none => none
    | c :: rest =>
      if c.toNat < 32 then none
      else parseJsonStrBody fuel (c :: acc) rest

/-- Parse a JSON number literal (sign, integer part, optional fraction
and exponent) as an exact rational; `JSON.parse` would round the value
to a binary double, which does not matter for the integer vectors the
engine works with. -/
def parseJsonNum (l : List Char) : Option (ℚ × List Char) :=
  let (neg, l1) := match l with
    | '-' :: r => (true, r)
    | _ => (false, l)
  let ds := l1.takeWhile Char.isDigit
  let r1 := l1.dropWhile Char.isDigit
  if ds.isEmpty then none
  else if ds.length > 1 && ds.headD '0' = '0' then none
  else
    let intPart : ℚ := qOfNat (digitsToNat ds)
    let (fracVal, r2) : ℚ × List Char :=
      match r1 with
      | '.' :: r =>
        let fd := r.takeWhile Char.isDigit
        if fd.isEmpty then (0, '.' :: r)
        else (qOfNat (digitsToNat fd) / qOfNat (10 ^ fd.length), r.dropWhile Char.isDigit)
      | _ => (0, r1)
    if r2.length < r1.length ∨ r1 = r2 then
      let base := intPart + fracVal
      match r2 with
      | e :: r =>
        if e = 'e' ∨ e = 'E' then
          let (eneg, r3) := match r with
            | '+' :: rr => (false, rr)
            | '-' :: rr => (true, rr)
            | _ => (false, r)
          let ed := r3.takeWhile Char.isDigit
          if ed.isEmpty then none
          else
            let ev := digitsToNat ed
            let scaled := if eneg then base / qOfNat (10 ^ ev) else base * qOfNat (10 ^ ev)
            some ((if neg then -scaled else scaled), r3.dropWhile Char.isDigit)
        else some ((if neg then -base else base), r2)
      | [] => some ((if neg then -base else base), [])
    else none

mutual

/-- Recursive-descent model of `JSON.parse` on one value; leading JSON
whitespace is skipped, and the remaining input is returned. -/
def parseJsonVal : Nat → List Char → Option (JsVal × List Char)
  | 0, _ => none
  | Nat.succ fuel, l =>
    let l := l.dropWhile jsonWs
    match l with
    | 'n' :: 'u' :: 'l' :: 'l' :: rest => some (.null, rest)
    | 't' :: 'r' :: 'u' :: 'e' :: rest => some (.bool true, rest)
    | 'f' :: 'a' :: 'l' :: 's' :: 'e' :: rest => some (.bool false, rest)
    | '"' :: rest =>
      (parseJsonStrBody (rest.length + 1) [] rest).map (fun p => (.str (String.mk p.1), p.2))
    | '[' :: rest =>
      let r := rest.dropWhile jsonWs
      match r with
      | ']' :: r2 => some (.arr [], r2)
      | _ => (parseJsonElems fuel rest).map (fun p => (.arr p.1, p.2))
    | '{' :: rest =>
      let r := rest.dropWhile jsonWs
      match r with
      | '}' :: r2 => some (.obj [], r2)
      | _ => (parseJsonMembers fuel rest).map (fun p => (.obj p.1, p.2))
    | c :: _ =>
      if c = '-' ∨ c.isDigit then
        (parseJsonNum l).map (fun p => (.num p.1, p.2))
      else none
    | [] => none

/-- Comma-separated JSON array elements up to the closing bracket. -/
def parseJsonElems : Nat → List Char → Option (List JsVal × List Char)
  | 0, _ => none
  | Nat.succ fuel, l => do
    let (v, rest) ← parseJsonVal fuel l
    let r := rest.dropWhile jsonWs
    match r with
    | ']' :: r2 => some ([v], r2)
    | ',' :: r2 => (parseJsonElems fuel r2).map (fun p => (v :: p.1, p.2))
    | _ => none

/-- Comma-separated JSON object members up to the closing brace. -/
def parseJsonMembers : Nat → List Char → Option (List (String × JsVal) × List Char)
  | 0, _ => none
  | Nat.succ fuel, l =>
    let l := l.dropWhile jsonWs
    match l with
    | '"' :: rest => do
      let (k, r1) ← parseJsonStrBody (rest.length + 1) [] rest
      let r2 := r1.dropWhile jsonWs
      match r2 with
      | ':' :: r3 => do
        let (v, r4) ← parseJsonVal fuel r3
        let r5 := r4.dropWhile jsonWs
        match r5 with
        | '}' :: r6 => some ([(String.mk k, v)], r6)
        | ',' :: r6 => (parseJsonMembers fuel r6).map (fun p => ((String.mk k, v) :: p.1, p.2))
        | _ => none
      | _ => none
    | _ => none

end

/-- Model of `JSON.parse` applied to a whole text: the text must be one
JSON value surrounded only by whitespace. -/
def jsonParseStr (l : List Char) : Option JsVal :=
  match parseJsonVal (4 * l.length + 8) l with
  | some (v, rest) => if (rest.dropWhile jsonWs).isEmpty then some v else none
  | none => none

/-- JS string-to-number conversion (`ToNumber` on strings), restricted to
decimal literals: the trimmed empty string is `0`, a decimal literal is
its value, anything else is `NaN` (`none`). Hex/binary literals and
`Infinity` are not modelled; they never appear in vote texts. -/
def strToNumber (s : String) : Option ℚ :=
  let t := jsTrim s.data
  if t.isEmpty then some 0
  else
    let (neg, l1) := match t with
      | '-' :: r => (true, r)
      | '+' :: r => (false, r)
      | _ => (false, t)
    let ds := l1.takeWhile Char.isDigit
    let r1 := l1.dropWhile Char.isDigit
    let intPart : ℚ := qOfNat (digitsToNat ds)
    let (fracDigits, r2) : List Char × List Char :=
      match r1 with
      | '.' :: r => (r.takeWhile Char.isDigit, r.dropWhile Char.isDigit)
      | _ => ([], r1)
    if ds.isEmpty ∧ fracDigits.isEmpty then none
    else
      let base := intPart + qOfNat (digitsToNat fracDigits) / qOfNat (10 ^ fracDigits.length)
      match r2 with
      | [] => some (if neg then -base else base)
      | e :: r3 =>
        if e = 'e' ∨ e = 'E' then
          let (eneg, r4) := match r3 with
            | '+' :: rr => (false, rr)
            | '-' :: rr => (true, rr)
            | _ => (false, r3)
          let ed := r4.takeWhile Char.isDigit
          if ed.isEmpty ∨ ¬ (r4.dropWhile Char.isDigit).isEmpty then none
          else
            let ev := digitsToNat ed
            let scaled := if eneg then base / qOfNat (10 ^ ev) else base * qOfNat (10 ^ ev)
            some (if neg then -scaled else scaled)
        else none

/-- JS rendering of a number in string contexts; integral rationals print
as plain integers, which is the only case the engine produces. -/
def jsNumToString (q : ℚ) : String :=
  if q.den = 1 then toString q.num else toString q

/-- JS `Array.prototype.join(",")` element rendering: `null` joins as the
empty string, primitives via their string conversion. -/
def jsValJoinPiece : Nat → JsVal → String
  | 0, _ => ""
  | Nat.succ fuel, v =>
    match v with
    | .null => ""
    | .bool b => if b then "true" else "false"
    | .num q => jsNumToString q
    | .nan => "NaN"
    | .str s => s
    | .arr xs => String.intercalate "," (xs.map (jsValJoinPiece fuel))
    | .obj _ => "[object Object]"

/-- JS `ToNumber` on the values that can appear inside a parsed `score`
array; arrays coerce through their joined string form, objects are `NaN`. -/
def jsToNumber (v : JsVal) : Option ℚ :=
  match v with
  | .null => some 0
  | .bool b => some (if b then 1 else 0)
  | .num q => some q
  | .nan => none
  | .str s => strToNumber s
  | .arr xs => strToNumber (String.intercalate "," (xs.map (jsValJoinPiece 64)))
  | .obj _ => none

/-- Model of `parseInt(s)` in base 10: skip whitespace, optional sign,
then the leading digit run; no digits means `NaN` (`none`). -/
def parseIntJs (l : List Char) : Option ℚ :=
  let t := l.dropWhile jsWs
  let (neg, l1) := match t with
    | '-' :: r => (true, r)
    | '+' :: r => (false, r)
    | _ => (false, t)
  let ds := l1.takeWhile Char.isDigit
  if ds.isEmpty then none
  else some (if neg then -(qOfNat (digitsToNat ds)) else qOfNat (digitsToNat ds))

/-- Case-insensitive literal match of `pat` against the start of `l`
(model of a case-insensitively flagged literal regex piece). -/
def ciHeadMatch : List Char → List Char → Bool
  | [], _ => true
  | _ :: _, [] => false
  | p :: ps, c :: cs => p.toLower = c.toLower && ciHeadMatch ps cs

/-- Character class of the legacy score capture, `[0-9,\s]`. -/
def inScoreSet (c : Char) : Bool :=
  c.isDigit || c = ',' || jsWs c

/-- Scan for the first position where `SCORE:\s*([0-9,\s]+)` (with the
`i` flag) matches, returning the capture group: the maximal class run
after `SCORE:` with its whitespace run stripped when a non-whitespace
class character follows, or the last whitespace character when the run
is whitespace only (the backtracking behavior of the greedy `\s*`
against the one-or-more class). -/
def scoreMatchFrom : List Char → Option (List Char)
  | [] => none
  | l@(_ :: cs) =>
    if ciHeadMatch "SCORE:".data l then
      let rest := l.drop 6
      let r := rest.takeWhile inScoreSet
      let w := rest.takeWhile jsWs
      if r.isEmpty then scoreMatchFrom cs
      else if w.length < r.length then some (r.drop w.length)
      else some [w.getLastD ' ']
    else scoreMatchFrom cs

/-- Characters up to (excluding) the first case-insensitive occurrence
of `SCORE:`, or the whole input — the lazy group of
`JUSTIFICATION:\s*([^]*?)(?:$|SCORE:)`. `acc` is the reversed output. -/
def takeUntilScoreTagAux : List Char → List Char → List Char
  | acc, [] => acc.reverse
  | acc, l@(c :: cs) =>
    if ciHeadMatch "SCORE:".data l then acc.reverse
    else takeUntilScoreTagAux (c :: acc) cs

/-- See `takeUntilScoreTagAux`. -/
def takeUntilScoreTag (l : List Char) : List Char :=
  takeUntilScoreTagAux [] l

/-- Scan for the first match of `JUSTIFICATION:\s*([^]*?)(?:$|SCORE:)`
(with the `i` flag), returning the capture group. -/
def justifMatchFrom : List Char → Option (List Char)
  | [] => none
  | l@(_ :: cs) =>
    if ciHeadMatch "JUSTIFICATION:".data l then
      some (takeUntilScoreTag ((l.drop 14).dropWhile jsWs))
    else justifMatchFrom cs

/-- Given the input just after the opening brace of a fenced-block
candidate, find the lazy closing brace: the first closing brace that is
followed by whitespace and three backticks. `acc` holds the reversed
body consumed so far. -/
def fencedClose : Nat → List Char → List Char → Option (List Char)
  | 0, _, _ => none
  | Nat.succ fuel, acc, l =>
    match l with
    | [] => none
    | '}' :: rest =>
      if (rest.dropWhile jsWs).take 3 = ['`', '`', '`'] then
        some ('{' :: (acc.reverse ++ ['}']))
      else fencedClose fuel ('}' :: acc) rest
    | c :: rest => fencedClose fuel (c :: acc) rest

/-- One attempt of the fenced-block body `\s*({[\s\S]*?})\s*` starting
at `rest` (just after the backticks and the optional `json` tag). -/
def fencedBody (rest : List Char) : Option (List Char) :=
  match rest.dropWhile jsWs with
  | '{' :: body => fencedClose (body.length + 1) [] body
  | _ => none

/-- Match the fenced-block regex at one start position: three backticks,
an optional `json` tag (tried first, as the regex prefers it), then the
lazy object body. -/
def fencedCandAt (l : List Char) : Option (List Char) :=
  match l with
  | '`' :: '`' :: '`' :: rest =>
    match rest with
    | 'j' :: 's' :: 'o' :: 'n' :: rest2 =>
      match fencedBody rest2 with
      | some g => some g
      | none => fencedBody rest
    | _ => fencedBody rest
  | _ => none

/-- Scan the text for the first match of the fenced-block regex and
return its capture group. -/
def fencedScan : Nat → List Char → Option (List Char)
  | 0, _ => none
  | Nat.succ fuel, l =>
    match fencedCandAt l with
    | some g => some g
    | none =>
      match l with
      | [] => none
      | _ :: cs => fencedScan fuel cs

/-- Split the input at the first closing brace, if any; `acc` is the
reversed part before the brace. -/
def splitAtCloseBraceAux : List Char → List Char → Option (List Char × List Char)
  | acc, [] => none
  | acc, c :: r =>
    if c = '}' then some (acc.reverse, r)
    else splitAtCloseBraceAux (c :: acc) r

/-- See `splitAtCloseBraceAux`. -/
def splitAtCloseBrace (l : List Char) : Option (List Char × List Char) :=
  splitAtCloseBraceAux [] l

/-- All matches of the lazy brace regex with the `g` flag: repeatedly
take the earliest opening brace and the first closing brace after it. -/
def braceMatches : Nat → List Char → List (List Char)
  | 0, _ => []
  | Nat.succ fuel, l =>
    match l with
    | [] => []
    | '{' :: rest =>
      match splitAtCloseBrace rest with
      | some (body, rest2) => ('{' :: (body ++ ['}'])) :: braceMatches fuel rest2
      | none => []
    | _ :: cs => braceMatches fuel cs

/-- JS truthiness of the values `parseModelResponse` handles. -/
def jsTruthy : JsVal → Bool
  | .null => false
  | .bool b => b
  | .num q => ! qBeq q (qOfNat 0)
  | .nan => false
  | .str s => ! (s == "")
  | .arr _ => true
  | .obj _ => true

/-- `typeof v === "object"` for the modelled values (true for objects,
arrays and `null`). -/
def jsTypeofObject : JsVal → Bool
  | .null => true
  | .arr _ => true
  | .obj _ => true
  | _ => false

/-- The `in` operator restricted to own properties of plain objects. -/
def JsVal.hasKey : JsVal → String → Bool
  | .obj fs, k => fs.any (fun f => f.1 == k)
  | _, _ => false

/-- Property read `v[k]`; with duplicate JSON keys the last one wins,
as in `JSON.parse`. -/
def JsVal.getKey : JsVal → String → Option JsVal
  | .obj fs, k => (fs.reverse.find? (fun f => f.1 == k)).map (fun f => f.2)
  | _, _ => none

/-- Strategy 0 of `parseModelResponse`: the trimmed text is one JSON
object carrying `score` and `justification` keys. -/
def strategy0 (text : List Char) : Option JsVal :=
  let t := jsTrim text
  if t.headD ' ' = '{' ∧ t.getLastD ' ' = '}' then
    match jsonParseStr t with
    | some parsed =>
      if jsTruthy parsed && jsTypeofObject parsed &&
          parsed.hasKey "score" && parsed.hasKey "justification" then
        some parsed
      else none
    | none => none
  else none

/-- Strategy 1: the first fenced code block whose contents parse as
JSON; note the source performs no key check on this strategy. -/
def strategy1 (text : List Char) : Option JsVal :=
  match fencedScan (text.length + 1) text with
  | some g => jsonParseStr (jsTrim g)
  | none => none

/-- Strategy 2: every lazy `{...}` match in order, until one parses as a
JSON object carrying `score` and `justification` keys. -/
def strategy2 (text : List Char) : Option JsVal :=
  (braceMatches (text.length + 1) text).findSome? (fun cand =>
    match jsonParseStr cand with
    | some parsed =>
      if jsTruthy parsed && jsTypeofObject parsed &&
          parsed.hasKey "score" && parsed.hasKey "justification" then
        some parsed
      else none
    | none => none)

/-- Split a character list at commas (model of `String.split(",")`);
`acc` is the reversed current piece. -/
def splitOnCommaAux : List Char → List Char → List (List Char)
  | acc, [] => [acc.reverse]
  | acc, c :: r =>
    if c = ',' then acc.reverse :: splitOnCommaAux [] r
    else splitOnCommaAux (c :: acc) r

/-- See `splitOnCommaAux`. -/
def splitOnComma (l : List Char) : List (List Char) :=
  splitOnCommaAux [] l

/-- Wrap a `parseInt` result back into a JS value (`NaN` for `none`). -/
def numOrNan : Option ℚ → JsVal
  | some q => .num q
  | none => .nan

/-- Strategy 3, the legacy tagged format: a `SCORE:` capture split on
commas through `parseInt`, and an optional `JUSTIFICATION:` capture. -/
def strategy3 (text : List Char) : Option JsVal :=
  match scoreMatchFrom text with
  | none => none
  | some cap =>
    let scores := (splitOnComma cap).map (fun s => numOrNan (parseIntJs (jsTrim s)))
    let just :=
      match justifMatchFrom text with
      | some j => String.mk (jsTrim j)
      | none => ""
    some (.obj [("score", .arr scores), ("justification", .str just)])

/-- The ordered strategy chain of `parseModelResponse`: the first
strategy that produces a value wins. -/
def extractResponse (text : List Char) : Option JsVal :=
  match strategy0 text with
  | some r => some r
  | none =>
    match strategy1 text with
    | some r => some r
    | none =>
      match strategy2 text with
      | some r => some r
      | none => strategy3 text

/-- One `(outcome, score)` entry of the result (`ScoreOutcome`). -/
structure ScoreOutcome where
  outcome : String
  score : ℚ
deriving DecidableEq

/-- Result shape of `parseModelResponse`. -/
structure ParsedResponse where
  decisionVector : Option (List ℚ)
  justification : String
  scores : List ScoreOutcome
deriving DecidableEq

/-- The catch-all result of `parseModelResponse`. -/
def nullParsed : ParsedResponse := ⟨none, "", []⟩

/-- Outcome label for index `i`: the provided outcome when present and
non-empty (the source uses `||`, so an empty label also falls back),
otherwise `outcome<i+1>`. -/
def outcomeLabel (outcomes : Option (List String)) (i : Nat) : String :=
  let fallback := "outcome" ++ toString (i + 1)
  match outcomes with
  | some os =>
    match os.get? i with
    | some o => if o = "" then fallback else o
    | none => fallback
  | none => fallback

/-- The `scores` array built from a validated decision vector. -/
def mkScores (dv : List ℚ) (outcomes : Option (List String)) : List ScoreOutcome :=
  dv.enum.map (fun p => ⟨outcomeLabel outcomes p.1, p.2⟩)

/-- The validation stage of `parseModelResponse`: structure checks, the
`NaN` check, the length check against named outcomes, and the
sum-equals-1,000,000 check, in source order; any failure is a thrown
error, modelled as `Except.error` with the thrown message. -/
def validateResponse (response : JsVal) (outcomes : Option (List String)) :
    Except String (List ℚ × String × List ScoreOutcome) :=
  if jsTruthy response && jsTypeofObject response then
    match response.getKey "score" with
    | some (JsVal.arr scoreArr) =>
      match response.getKey "justification" with
      | some (JsVal.str just) =>
        let nums := scoreArr.map jsToNumber
        if nums.any Option.isNone then
          Except.error "All scores must be valid numbers"
        else
          let decisionVector := nums.map (fun o => o.getD 0)
          let lenMismatch : Bool :=
            match outcomes with
            | some os => decisionVector.length != os.length
            | none => false
          if lenMismatch then
            Except.error "Score array length does not match outcomes length"
          else if ! qBeq decisionVector.sum (qOfNat 1000000) then
            Except.error "Scores must sum to 1,000,000"
          else
            Except.ok (decisionVector, just, mkScores decisionVector outcomes)
      | _ => Except.error "Justification must be a string"
    | _ => Except.error "Score must be an array of numbers"
  else Except.error "Could not extract valid JSON response from model output"

/-- `parseModelResponse(responseText, outcomes)`: extraction followed by
validation, with every thrown error caught and turned into the null
result. -/
def parseModelResponse (responseText : String) (outcomes : Option (List String)) :
    ParsedResponse :=
  match extractResponse responseText.data with
  | none => nullParsed
  | some r =>
    match validateResponse r outcomes with
    | Except.error _ => nullParsed
    | Except.ok (dv, j, sc) => ⟨some dv, j, sc⟩

/-- Boolean equality of `ScoreOutcome` values. -/
def scoreOutcomeBeq (a b : ScoreOutcome) : Bool :=
  a.outcome == b.outcome && qBeq a.score b.score

/-- `scoreOutcomeBeq` decides equality. -/
theorem scoreOutcomeBeq_iff : ∀ a b : ScoreOutcome, scoreOutcomeBeq a b = true ↔ a = b
  | ⟨o1, s1⟩, ⟨o2, s2⟩ => by
    simp only [scoreOutcomeBeq, Bool.and_eq_true, beq_iff_eq, qBeq_iff,
      ScoreOutcome.mk.injEq]

/-- Boolean equality of `ParsedResponse` values. -/
def parsedBeq (a b : ParsedResponse) : Bool :=
  optBeq (listBeqF qBeq) a.decisionVector b.decisionVector &&
    (a.justification == b.justification) &&
    listBeqF scoreOutcomeBeq a.scores b.scores

/-- `parsedBeq` decides equality. -/
theorem parsedBeq_iff : ∀ a b : ParsedResponse, parsedBeq a b = true ↔ a = b
  | ⟨d1, j1, s1⟩, ⟨d2, j2, s2⟩ => by
    simp only [parsedBeq, Bool.and_eq_true, beq_iff_eq,
      optBeq_iff (fun x y => listBeqF_iff (fun u v => qBeq_iff) x y),
      listBeqF_iff scoreOutcomeBeq_iff, ParsedResponse.mk.injEq, and_assoc]

/-- One participating model of a request (`ModelInput` in the source);
`count` and the request's `iterations` are optional in the body. -/
structure ModelInput where
  provider : String
  model : String
  weight : ℚ
  count : Option Nat

/-- The request body of the rank-and-justify route
(`RankAndJustifyInput`). -/
structure RankAndJustifyInput where
  prompt : String
  outcomes : Option (List String)
  models : List ModelInput
  iterations : Option Nat
  attachments : List String

/-- The success payload of the route (`RankAndJustifyOutput`). -/
structure RankAndJustifyOutput where
  scores : List ScoreOutcome
  justification : String

/-- The error responses the route can produce, by the site that
produces them. -/
inductive ErrKind where
  | invalidInput
  | invalidWeights
  | invalidModel
  | providerError (msg : String)
  | parseFailure (model response : String)
  | internalError (msg : String)
deriving DecidableEq

/-- One connector invocation (network call) made by the engine, with
the prompt that was sent; the trace of these events models the network
activity of a run. -/
structure CallEvent where
  round : Nat
  modelIdx : Nat
  sample : Nat
  prompt : String
deriving DecidableEq

/-- The engine's external collaborators: the provider factory
(`LLMFactory.getProvider` succeeds or throws), the connector responses
per (round, model index, sample), and the justifier connector.
`generateResponse` and `generateResponseWithAttachments` are both
plain text-returning calls and are modelled uniformly by `respond`. -/
structure Env where
  providerOk : String → Bool
  respond : Nat → Nat → Nat → Except String String
  justifierOk : Bool
  justifierProviderName : String
  justify : String → Except String String

/-- `iterations = body.iterations || 1`: absent or `0` becomes `1`. -/
def effIterations : Option Nat → Nat
  | none => 1
  | some 0 => 1
  | some (Nat.succ n) => Nat.succ n

/-- `count = modelInfo.count || 1`: absent or `0` becomes `1`. -/
def effCount : Option Nat → Nat
  | none => 1
  | some 0 => 1
  | some (Nat.succ n) => Nat.succ n

/-- JS `Array.prototype.join(sep)` on strings. -/
def joinSep (sep : String) : List String → String
  | [] => ""
  | [a] => a
  | a :: b :: rest => a ++ sep ++ joinSep sep (b :: rest)

/-- JS rendering of a decision vector in a template literal
(`Array.prototype.toString`, elements joined by commas). -/
def dvToString (dv : List ℚ) : String :=
  joinSep "," (dv.map jsNumToString)

/-- Modelled from the spec: `prePromptConfig.getPrompt(outcomes)` — the
initial instruction template rendered for the outcome set. The source
of `getPrompt` is not part of the repository snapshot; the spec treats
prompt template rendering as an opaque string-producing collaborator,
so any fixed rendering is faithful. -/
def prePromptGetPrompt (outcomes : Option (List String)) : String :=
  "Provide a score for each outcome; the scores must sum to 1000000." ++
    (match outcomes with
     | some os => " Outcomes: " ++ joinSep ", " os
     | none => "")

/-- Modelled from the spec: `postPromptConfig.prompt` with the
previous-responses placeholder substituted — the feedback template is a
fixed text containing the placeholder once, and the route replaces the
placeholder with the newline-joined previous responses. -/
def postPromptApply (prev : String) : String :=
  "Consider the previous responses:\n\n" ++ prev

/-- The per-model iteration prompt: the rendered initial template plus
the user prompt, and from the second round on (when previous responses
exist) the feedback template applied to the joined previous responses. -/
def buildPrompt (outcomes : Option (List String)) (prompt : String) (i : Nat)
    (prevResps : List String) : String :=
  let base := prePromptGetPrompt outcomes ++ "\n\n" ++ prompt
  if i > 0 && ! prevResps.isEmpty then
    base ++ "\n\n" ++ postPromptApply (joinSep "\n\n" prevResps)
  else base

/-- The `From model ...` entry collected into the round's justification
list. -/
def justEntry (model just : String) : String :=
  "From model " ++ model ++ ":\n" ++ just

/-- The formatted response pushed into `previousIterationResponses`. -/
def formattedResponse (provider model : String) (dv : List ℚ) (just : String) : String :=
  "From " ++ provider ++ " - " ++ model ++ ":\nScore: " ++ dvToString dv ++
    "\nJustification: " ++ just

/-- The prompt built by `generateJustification` from the aggregated
vector and the collected justifications. -/
def justifierPrompt (vTotal : List ℚ) (allJustifications : List String) : String :=
  "Using the aggregated decision vector [" ++ joinSep "," (vTotal.map jsNumToString) ++
    "], and considering the following justifications from individual models:\n\n" ++
    joinSep "\n\n" allJustifications ++
    "\n\nProvide a comprehensive justification for the result."

/-- `averageVectors(vectors)`: per-component sum over the samples,
divided by the sample count and floored (`Math.floor`), computed
independently per outcome index; the dimension is the first sample's
length. -/
def averageVectors (vectors : List (List ℚ)) : List ℚ :=
  let dimensions := (vectors.headD []).length
  (List.range dimensions).map (fun j =>
    qOfInt ⌊((vectors.map (fun v => v.getD j 0)).sum) / qOfNat vectors.length⌋)

/-- `Math.floor(i / (vectors.length / weights.length))`, the index into
the weights array used by `computeAverageVectors`; in the engine the two
lists always have one entry per model, so this reduces to `i`. -/
def weightIndex (i n m : Nat) : Nat :=
  (⌊qOfNat i / (qOfNat n / qOfNat m)⌋).toNat

/-- `computeAverageVectors(vectors, weights)`: the weighted accumulation
`result[j] += vectors[i][j] * weights[floor(i/(n/m))] / totalWeight`,
with the total weight computed once; no renormalization follows. -/
def computeAverageVectors (vectors : List (List ℚ)) (weights : List ℚ) : List ℚ :=
  let totalWeight := weights.sum
  let dimensions := (vectors.headD []).length
  (List.range dimensions).map (fun j =>
    ((List.range vectors.length).map (fun i =>
      (vectors.getD i []).getD j 0 *
        weights.getD (weightIndex i vectors.length weights.length) 0 / totalWeight)).sum)

/-- The per-model reduction step of the route: `averageVectors` when the
sample count exceeds one, otherwise the first (only) output unchanged. -/
def modelAverage (count : Nat) (allOutputs : List (List ℚ)) : List ℚ :=
  if count > 1 then averageVectors allOutputs else allOutputs.headD []

/-- The per-model sample loop (`for c in 0..count-1`). Each iteration
invokes the connector (recorded as a `CallEvent`), parses the response,
aborts the request on a connector error or an unparseable vote, and on
success collects the decision vector, the formatted justification entry
and — when `pushPrev` (this is not the final round) and the
justification is non-empty — the `previousIterationResponses` entry. -/
def runSamples (env : Env) (outcomes : Option (List String)) (provider model : String)
    (iPrompt : String) (i j : Nat) (pushPrev : Bool) :
    Nat → Nat → List CallEvent × Except ErrKind (List (List ℚ) × List String × List String)
  | 0, _ => ([], Except.ok ([], [], []))
  | Nat.succ rem, c =>
    let ev : CallEvent := ⟨i, j, c, iPrompt⟩
    match env.respond i j c with
    | Except.error msg => ([ev], Except.error (ErrKind.providerError msg))
    | Except.ok responseText =>
      let pr := parseModelResponse responseText outcomes
      match pr.decisionVector with
      | none => ([ev], Except.error (ErrKind.parseFailure model responseText))
      | some dv =>
        let hasJust := ! (pr.justification == "")
        let justAdds := if hasJust then [justEntry model pr.justification] else []
        let prevAdds :=
          if hasJust && pushPrev then [formattedResponse provider model dv pr.justification]
          else []
        match runSamples env outcomes provider model iPrompt i j pushPrev rem (c + 1) with
        | (tr, Except.error e) => (ev :: tr, Except.error e)
        | (tr, Except.ok (outs, js, ps)) =>
          (ev :: tr, Except.ok (dv :: outs, justAdds ++ js, prevAdds ++ ps))

/-- The per-model input check of the model loop: falsy provider or
model name, or a weight outside `[0, 1]`
(`!provider || !model || weight < 0 || weight > 1`). -/
def modelCheckFails (mi : ModelInput) : Bool :=
  (mi.provider == "") || (mi.model == "") ||
    qBlt mi.weight (qOfNat 0) || qBlt (qOfNat 1) mi.weight

/-- The per-round model loop (`for j in 0..models.length-1`): the
per-model input validation, the provider lookup, the iteration prompt
built from the `previousIterationResponses` accumulated so far, the
sample loop, and the per-model reduction. Returns the round's
per-model averaged vectors, their weights, the round's justification
list and the additions to `previousIterationResponses`. -/
def runModels (env : Env) (outcomes : Option (List String)) (prompt : String)
    (i iterations : Nat) :
    List ModelInput → Nat → List String →
    List CallEvent × Except ErrKind (List (List ℚ) × List ℚ × List String × List String)
  | [], _, _ => ([], Except.ok ([], [], [], []))
  | mi :: rest, j, prevResps =>
    if modelCheckFails mi then
      ([], Except.error ErrKind.invalidModel)
    else if ! env.providerOk mi.provider then
      ([], Except.error (ErrKind.providerError ("Unsupported provider: " ++ mi.provider)))
    else
      match runSamples env outcomes mi.provider mi.model (buildPrompt outcomes prompt i prevResps) i j
          (decide (i < iterations - 1)) (effCount mi.count) 0 with
      | (tr, Except.error e) => (tr, Except.error e)
      | (tr, Except.ok (allOutputs, js, ps)) =>
        match runModels env outcomes prompt i iterations rest (j + 1) (prevResps ++ ps) with
        | (tr2, Except.error e) => (tr ++ tr2, Except.error e)
        | (tr2, Except.ok (outs, ws, js2, ps2)) =>
          (tr ++ tr2,
            Except.ok (modelAverage (effCount mi.count) allOutputs :: outs, mi.weight :: ws,
              js ++ js2, ps ++ ps2))

/-- The round loop (`for i in 0..iterations-1`): run every model,
aggregate with `computeAverageVectors`, and on the final round call the
justifier (whose factory lookup or call failure propagates to the outer
catch). Returns the final aggregated score, the last round's per-model
vectors and weights, and the final justification. The `rem` fuel equals
`iterations - i` on every reachable call. -/
def runRounds (env : Env) (outcomes : Option (List String)) (prompt : String)
    (models : List ModelInput) (iterations : Nat) :
    Nat → Nat → List String →
    List CallEvent × Except ErrKind (List ℚ × List (List ℚ) × List ℚ × String)
  | 0, _, _ => ([], Except.ok ([], [], [], ""))
  | Nat.succ rem, i, prevResps =>
    match runModels env outcomes prompt i iterations models 0 prevResps with
    | (tr, Except.error e) => (tr, Except.error e)
    | (tr, Except.ok (outs, ws, justs, prevAdds)) =>
      let finalAggregatedScore := computeAverageVectors outs ws
      if i + 1 = iterations then
        if ! env.justifierOk then
          (tr, Except.error (ErrKind.internalError
            ("Unsupported provider: " ++ env.justifierProviderName)))
        else
          match env.justify (justifierPrompt finalAggregatedScore justs) with
          | Except.error msg => (tr, Except.error (ErrKind.internalError msg))
          | Except.ok fj => (tr, Except.ok (finalAggregatedScore, outs, ws, fj))
      else
        match runRounds env outcomes prompt models iterations rem (i + 1) (prevResps ++ prevAdds) with
        | (tr2, res) => (tr ++ tr2, res)

/-- The final `scores` array: each component of the final aggregated
vector floored, labelled by the outcome at its index (or `unnamed`). -/
def finalScores (outcomes : Option (List String)) (agg : List ℚ) : List ScoreOutcome :=
  match outcomes with
  | some os => (List.range agg.length).map (fun k => ⟨os.getD k "", qOfInt ⌊agg.getD k 0⌋⟩)
  | none => agg.map (fun q => ⟨"unnamed", qOfInt ⌊q⌋⟩)

/-- The `POST` handler of the rank-and-justify route over the connector
environment: request validation, total-weight validation, the round
loop, and the success payload. The first component is the trace of
connector invocations (the network activity of the request). -/
def POST (env : Env) (req : RankAndJustifyInput) :
    List CallEvent × Except ErrKind RankAndJustifyOutput :=
  if (req.prompt == "") || req.models.isEmpty then
    ([], Except.error ErrKind.invalidInput)
  else
    let totalWeights := (req.models.map ModelInput.weight).sum
    if qBle totalWeights (qOfNat 0) || qBlt (qOfNat req.models.length) totalWeights then
      ([], Except.error ErrKind.invalidWeights)
    else
      let iterations := effIterations req.iterations
      match runRounds env req.outcomes req.prompt req.models iterations iterations 0 [] with
      | (tr, Except.error e) => (tr, Except.error e)
      | (tr, Except.ok (finalAggregatedScore, _, _, fj)) =>
        (tr, Except.ok ⟨finalScores req.outcomes finalAggregatedScore, fj⟩)

/-- Boolean equality of success payloads. -/
def outputBeq (a b : RankAndJustifyOutput) : Bool :=
  listBeqF scoreOutcomeBeq a.scores b.scores && (a.justification == b.justification)

/-- `outputBeq` decides equality. -/
theorem outputBeq_iff : ∀ a b : RankAndJustifyOutput, outputBeq a b = true ↔ a = b
  | ⟨s1, j1⟩, ⟨s2, j2⟩ => by
    simp only [outputBeq, Bool.and_eq_true, beq_iff_eq,
      listBeqF_iff scoreOutcomeBeq_iff, RankAndJustifyOutput.mk.injEq]

/-- Boolean equality of route results. -/
def resultBeq : Except ErrKind RankAndJustifyOutput → Except ErrKind RankAndJustifyOutput → Bool
  | Except.error e1, Except.error e2 => decide (e1 = e2)
  | Except.ok o1, Except.ok o2 => outputBeq o1 o2
  | _, _ => false

/-- `resultBeq` decides equality. -/
theorem resultBeq_iff : ∀ a b : Except ErrKind RankAndJustifyOutput,
    resultBeq a b = true ↔ a = b
  | Except.error e1, Except.error e2 => by simp [resultBeq]
  | Except.error e1, Except.ok o2 => by simp [resultBeq]
  | Except.ok o1, Except.error e2 => by simp [resultBeq]
  | Except.ok o1, Except.ok o2 => by simp [resultBeq, outputBeq_iff]

set_option maxRecDepth 2000

/-- C4: the raw JSON text, the same object inside a fenced code block,
and the legacy tagged text all parse to the identical vote with decision
vector `[700000, 300000]` and justification `x` (with positional outcome
labels, since no outcome set is supplied). -/
theorem c4_three_formats_identical :
    parseModelResponse "\x7b\"score\":[700000,300000],\"justification\":\"x\"\x7d" none =
      ⟨some [qOfNat 700000, qOfNat 300000], "x",
        [⟨"outcome1", qOfNat 700000⟩, ⟨"outcome2", qOfNat 300000⟩]⟩ ∧
    parseModelResponse "```json\n\x7b\"score\":[700000,300000],\"justification\":\"x\"\x7d\n```" none =
      ⟨some [qOfNat 700000, qOfNat 300000], "x",
        [⟨"outcome1", qOfNat 700000⟩, ⟨"outcome2", qOfNat 300000⟩]⟩ ∧
    parseModelResponse "SCORE: 700000,300000\nJUSTIFICATION: x" none =
      ⟨some [qOfNat 700000, qOfNat 300000], "x",
        [⟨"outcome1", qOfNat 700000⟩, ⟨"outcome2", qOfNat 300000⟩]⟩ :=
  ⟨(parsedBeq_iff _ _).mp (by with_unfolding_all decide),
   (parsedBeq_iff _ _).mp (by with_unfolding_all decide),
   (parsedBeq_iff _ _).mp (by with_unfolding_all decide)⟩

/-- C9: on every input string and outcome set, `parseModelResponse`
returns normally, and the result is either a parsed decision vector or
exactly the null triple (`decisionVector: null`, empty justification,
empty scores); no exception reaches the caller. -/
theorem c9_parse_total (text : String) (outcomes : Option (List String)) :
    (∃ dv, (parseModelResponse text outcomes).decisionVector = some dv) ∨
      parseModelResponse text outcomes = nullParsed := by
  cases hext : extractResponse text.data with
  | none => exact Or.inr (by simp only [parseModelResponse, hext])
  | some r =>
    cases hv : validateResponse r outcomes with
    | error e => exact Or.inr (by simp only [parseModelResponse, hext, hv])
    | ok v =>
      obtain ⟨dv, j, sc⟩ := v
      exact Or.inl ⟨dv, by simp only [parseModelResponse, hext, hv]⟩

/-- Reading a `List.range`-mapped list below its length. -/
theorem getD_range_map {α : Type _} (f : Nat → α) (y : α) {k d : Nat} (hk : k < d) :
    ((List.range d).map f).getD k y = f k := by
  simp [List.getD_eq_getElem?_getD, List.getElem?_range, hk]

/-- C3: the per-model reduction: for one sample it is the identity, and
for `n ≥ 1` samples of equal length with integer entries every component
is the floor of the arithmetic mean of the samples' components at this
index. -/
theorem c3_sample_average :
    (∀ v : List ℚ, modelAverage 1 [v] = v) ∧
    (∀ (n : Nat) (vs : List (List ℚ)) (d : Nat), vs.length = n → 1 ≤ n →
      (∀ v ∈ vs, v.length = d) →
      (∀ v ∈ vs, ∀ x ∈ v, ∃ z : ℤ, x = (z : ℚ)) →
      ∀ k, k < d → (modelAverage n vs).getD k 0 =
        qOfInt ⌊((vs.map (fun v => v.getD k 0)).sum) / qOfNat n⌋) := by
  constructor
  · intro v; rfl
  · intro n vs d hlen hn hdim hint k hk
    match n, hn with
    | 1, _ =>
      match vs, hlen with
      | [v], _ =>
        have hvd : v.length = d := hdim v (by simp)
        have hmem : v.getD k 0 ∈ v := by
          have : k < v.length := hvd ▸ hk
          rw [List.getD_eq_getElem?_getD, List.getElem?_eq_getElem this]
          exact List.getElem_mem this
        obtain ⟨z, hz⟩ := hint v (by simp) _ hmem
        show v.getD k 0 = qOfInt ⌊([v].map (fun v => v.getD k 0)).sum / qOfNat 1⌋
        rw [List.map_singleton, List.sum_singleton, qOfNat_eq_cast, qOfInt_eq_cast,
          Nat.cast_one, div_one, hz, Int.floor_intCast]
    | Nat.succ (Nat.succ m), _ =>
      have hvs : vs ≠ [] := by
        intro h; rw [h] at hlen; simp at hlen
      have hhead : (vs.headD []).length = d := hdim _ (by
        cases vs with
        | nil => exact absurd rfl hvs
        | cons a l => exact List.mem_cons_self a l)
      rw [modelAverage, if_pos (show Nat.succ (Nat.succ m) > 1 by omega)]
      rw [averageVectors]
      rw [hhead, getD_range_map _ _ hk, hlen]

/-- Witness for C3 at concrete inputs: identity on a single sample, and
the floored mean at index 0 of two two-dimensional integer samples. -/
theorem c3_sample_average_witness :
    modelAverage 1 [[qOfNat 3, qOfNat 5]] = [qOfNat 3, qOfNat 5] ∧
    (modelAverage 2 [[qOfNat 1, qOfNat 2], [qOfNat 2, qOfNat 3]]).getD 0 0 =
      qOfInt ⌊(([[qOfNat 1, qOfNat 2], [qOfNat 2, qOfNat 3]].map (fun v => v.getD 0 0)).sum) / qOfNat 2⌋ :=
  ⟨c3_sample_average.1 _,
   c3_sample_average.2 2 [[qOfNat 1, qOfNat 2], [qOfNat 2, qOfNat 3]] 2 rfl (by omega)
     (by intro v hv; fin_cases hv <;> rfl)
     (by
       intro v hv x hx
       have hz : ∀ n : Nat, ∃ z : ℤ, qOfNat n = (z : ℚ) := fun n =>
         ⟨n, by rw [qOfNat_eq_cast]; push_cast; rfl⟩
       fin_cases hv <;> fin_cases hx <;> exact hz _)
     0 (by omega)⟩

/-- Reading a mapped list below its length. -/
theorem getD_map_lt {α β : Type _} {f : α → β} {l : List α} {k : Nat}
    (hk : k < l.length) (d0 : α) (d1 : β) :
    (l.map f).getD k d1 = f (l.getD k d0) := by
  simp [List.getD_eq_getElem?_getD, List.getElem?_map, List.getElem?_eq_getElem hk]

/-- The weight index of `computeAverageVectors` is the model index when
the vector and weight lists have the same non-zero length. -/
theorem weightIndex_self {n : Nat} (hn : n ≠ 0) (i : Nat) : weightIndex i n n = i := by
  unfold weightIndex
  have hq : qOfNat n ≠ 0 := by
    rw [qOfNat_eq_cast]
    exact_mod_cast hn
  rw [div_self hq, div_one, qOfNat_eq_cast, Int.floor_natCast, Int.toNat_natCast]

/-- The aggregate component formula: with one vector and one weight per
model (equal lengths) and uniform dimension, component `k` of
`computeAverageVectors` is the weighted sum divided by the total
weight. -/
theorem computeAverageVectors_getD (vectors : List (List ℚ)) (weights : List ℚ)
    (hlen : vectors.length = weights.length) (hne : vectors ≠ [])
    (d : Nat) (hdim : ∀ v ∈ vectors, v.length = d) {k : Nat} (hk : k < d) :
    (computeAverageVectors vectors weights).getD k 0 =
      ((List.range vectors.length).map (fun j =>
        (vectors.getD j []).getD k 0 * weights.getD j 0)).sum / weights.sum := by
  unfold computeAverageVectors
  have hhead : (vectors.headD []).length = d := by
    cases vectors with
    | nil => exact absurd rfl hne
    | cons a l => exact hdim a (List.mem_cons_self a l)
  rw [hhead, getD_range_map _ _ hk]
  have hn0 : vectors.length ≠ 0 := by
    intro h
    exact hne (List.length_eq_zero.mp h)
  have hmap : (List.range vectors.length).map (fun i =>
      (vectors.getD i []).getD k 0 *
        weights.getD (weightIndex i vectors.length weights.length) 0 / weights.sum) =
      (List.range vectors.length).map (fun i =>
      ((vectors.getD i []).getD k 0 * weights.getD i 0) * (weights.sum)⁻¹) := by
    apply List.map_congr_left
    intro i _
    rw [← hlen, weightIndex_self hn0 i, div_eq_mul_inv]
  rw [hmap, List.sum_map_mul_right, div_eq_mul_inv]


/-- One-step inversion of the sample loop. -/
theorem runSamples_succ_inv {env : Env} {o : Option (List String)} {pv md pr : String}
    {i j rem c : Nat} {pp : Bool} {tr : List CallEvent}
    {res : Except ErrKind (List (List ℚ) × List String × List String)}
    (h : runSamples env o pv md pr i j pp (Nat.succ rem) c = (tr, res)) :
    (∃ msg, env.respond i j c = Except.error msg ∧
      tr = [⟨i, j, c, pr⟩] ∧ res = Except.error (ErrKind.providerError msg)) ∨
    (∃ t, env.respond i j c = Except.ok t ∧
      (parseModelResponse t o).decisionVector = none ∧
      tr = [⟨i, j, c, pr⟩] ∧ res = Except.error (ErrKind.parseFailure md t)) ∨
    (∃ t dv tr' res', env.respond i j c = Except.ok t ∧
      (parseModelResponse t o).decisionVector = some dv ∧
      runSamples env o pv md pr i j pp rem (c + 1) = (tr', res') ∧
      tr = ⟨i, j, c, pr⟩ :: tr' ∧
      ((∃ e, res' = Except.error e ∧ res = Except.error e) ∨
       (∃ outs js ps, res' = Except.ok (outs, js, ps) ∧
         res = Except.ok (dv :: outs,
           (if ! ((parseModelResponse t o).justification == "") then
              [justEntry md (parseModelResponse t o).justification] else []) ++ js,
           (if (! ((parseModelResponse t o).justification == "")) && pp then
              [formattedResponse pv md dv (parseModelResponse t o).justification] else []) ++ ps)))) := by
  rw [runSamples] at h
  cases hr : env.respond i j c with
  | error msg =>
    simp only [hr] at h
    obtain ⟨h1, h2⟩ := Prod.mk.injEq .. ▸ h
    exact Or.inl ⟨msg, rfl, h1.symm, h2.symm⟩
  | ok t =>
    simp only [hr] at h
    cases hdv : (parseModelResponse t o).decisionVector with
    | none =>
      simp only [hdv] at h
      obtain ⟨h1, h2⟩ := Prod.mk.injEq .. ▸ h
      exact Or.inr (Or.inl ⟨t, rfl, hdv, h1.symm, h2.symm⟩)
    | some dv =>
      simp only [hdv] at h
      rcases hS : runSamples env o pv md pr i j pp rem (c + 1) with ⟨tr', res'⟩
      rw [hS] at h
      cases res' with
      | error e =>
        obtain ⟨h1, h2⟩ := Prod.mk.injEq .. ▸ h
        exact Or.inr (Or.inr ⟨t, dv, tr', Except.error e, rfl, hdv, rfl, h1.symm,
          Or.inl ⟨e, rfl, h2.symm⟩⟩)
      | ok v =>
        obtain ⟨outs, js, ps⟩ := v
        obtain ⟨h1, h2⟩ := Prod.mk.injEq .. ▸ h
        exact Or.inr (Or.inr ⟨t, dv, tr', Except.ok (outs, js, ps), rfl, hdv, rfl, h1.symm,
          Or.inr ⟨outs, js, ps, rfl, h2.symm⟩⟩)

/-- Substring relation on strings (contiguous containment). -/
def strSub (a b : String) : Prop :=
  a.data <:+: b.data

/-- Appending on either side preserves string data concatenation. -/
theorem strData_append (a b : String) : (a ++ b).data = a.data ++ b.data := rfl

/-- A substring of a string is a substring of any right-extension. -/
theorem strSub_appendL {a b : String} (c : String) (h : strSub a b) : strSub a (b ++ c) := by
  unfold strSub at h ⊢
  rw [strData_append]
  obtain ⟨s, t, hst⟩ := h
  exact ⟨s, t ++ c.data, by rw [← hst]; simp⟩

/-- A substring of a string is a substring of any left-extension. -/
theorem strSub_appendR {a b : String} (c : String) (h : strSub a b) : strSub a (c ++ b) := by
  unfold strSub at h ⊢
  rw [strData_append]
  obtain ⟨s, t, hst⟩ := h
  exact ⟨c.data ++ s, t, by rw [← hst]; simp⟩

/-- Substring containment is transitive. -/
theorem strSub_trans {a b c : String} (h1 : strSub a b) (h2 : strSub b c) : strSub a c :=
  List.IsInfix.trans h1 h2

/-- Every string contains itself. -/
theorem strSub_self (a : String) : strSub a a :=
  ⟨[], [], by simp⟩

/-- The empty string is contained in every string. -/
theorem strSub_empty (a : String) : strSub "" a :=
  ⟨[], a.data, by simp [String.data]⟩

/-- Every element of a joined list is contained in the join. -/
theorem strSub_joinSep (sep : String) : ∀ (l : List String), ∀ s ∈ l, strSub s (joinSep sep l)
  | [a], s, hs => by
    rw [List.mem_singleton] at hs
    subst hs
    exact strSub_self s
  | a :: b :: rest, s, hs => by
    rw [List.mem_cons] at hs
    rcases hs with h | h
    · subst h
      show strSub s (s ++ sep ++ joinSep sep (b :: rest))
      exact strSub_appendL _ (strSub_appendL _ (strSub_self s))
    · have := strSub_joinSep sep (b :: rest) s h
      show strSub s (a ++ sep ++ joinSep sep (b :: rest))
      exact strSub_appendR _ this

/-- The justification text is contained in its formatted
`previousIterationResponses` entry. -/
theorem strSub_formattedResponse (pv md : String) (dv : List ℚ) (just : String) :
    strSub just (formattedResponse pv md dv just) := by
  unfold formattedResponse
  exact strSub_appendR _ (strSub_self just)

/-- Every accumulated previous response is contained in the feedback
prompt of any later round (`i > 0`). -/
theorem strSub_buildPrompt {o : Option (List String)} {p : String} {i : Nat}
    {prevResps : List String} (hi : 0 < i) {s : String} (hs : s ∈ prevResps) :
    strSub s (buildPrompt o p i prevResps) := by
  unfold buildPrompt
  have hne : prevResps.isEmpty = false := by
    cases prevResps with
    | nil => cases hs
    | cons a l => rfl
  rw [if_pos]
  · exact strSub_appendR _ (strSub_appendR _ (strSub_joinSep _ _ s hs))
  · simp [hne, hi]

/-- Every event of a sample-loop trace carries this loop's round, model
index and prompt. -/
theorem runSamples_trace_shape (env : Env) (o : Option (List String)) (pv md pr : String)
    (i j : Nat) (pp : Bool) :
    ∀ rem c tr res, runSamples env o pv md pr i j pp rem c = (tr, res) →
      ∀ e ∈ tr, e.round = i ∧ e.modelIdx = j ∧ e.prompt = pr := by
  intro rem
  induction rem with
  | zero =>
    intro c tr res h e he
    rw [runSamples] at h
    obtain ⟨h1, -⟩ := Prod.mk.injEq .. ▸ h
    rw [← h1] at he
    cases he
  | succ rem ih =>
    intro c tr res h e he
    rcases runSamples_succ_inv h with ⟨msg, hr, htr, hres⟩ | ⟨t, hr, hdv, htr, hres⟩ |
      ⟨t, dv, tr', res', hr, hdv, hS, htr, hrest⟩
    · subst htr
      rw [List.mem_singleton] at he
      subst he
      exact ⟨rfl, rfl, rfl⟩
    · subst htr
      rw [List.mem_singleton] at he
      subst he
      exact ⟨rfl, rfl, rfl⟩
    · subst htr
      rw [List.mem_cons] at he
      rcases he with he | he
      · subst he
        exact ⟨rfl, rfl, rfl⟩
      · exact ih (c + 1) tr' res' hS e he

/-- When the sample loop succeeds, every invocation in its trace got a
response that parsed to a decision vector. -/
theorem runSamples_ok_calls (env : Env) (o : Option (List String)) (pv md pr : String)
    (i j : Nat) (pp : Bool) :
    ∀ rem c tr v, runSamples env o pv md pr i j pp rem c = (tr, Except.ok v) →
      ∀ e ∈ tr, ∃ t dv, env.respond i j e.sample = Except.ok t ∧
        (parseModelResponse t o).decisionVector = some dv := by
  intro rem
  induction rem with
  | zero =>
    intro c tr v h e he
    rw [runSamples] at h
    obtain ⟨h1, -⟩ := Prod.mk.injEq .. ▸ h
    rw [← h1] at he
    cases he
  | succ rem ih =>
    intro c tr v h e he
    rcases runSamples_succ_inv h with ⟨msg, hr, htr, hres⟩ | ⟨t, hr, hdv, htr, hres⟩ |
      ⟨t, dv, tr', res', hr, hdv, hS, htr, hrest⟩
    · cases hres
    · cases hres
    · subst htr
      rw [List.mem_cons] at he
      rcases hrest with ⟨e0, hres', hres⟩ | ⟨outs, js, ps, hres', hres⟩
      · cases hres
      · rcases he with he | he
        · subst he
          exact ⟨t, dv, hr, hdv⟩
        · exact ih (c + 1) tr' (outs, js, ps) (hres' ▸ hS) e he

/-- A connector failure at any invocation of the sample-loop trace makes
the loop's result exactly that provider error. -/
theorem runSamples_respond_error (env : Env) (o : Option (List String)) (pv md pr : String)
    (i j : Nat) (pp : Bool) :
    ∀ rem c tr res, runSamples env o pv md pr i j pp rem c = (tr, res) →
      ∀ e ∈ tr, ∀ msg, env.respond i j e.sample = Except.error msg →
        res = Except.error (ErrKind.providerError msg) := by
  intro rem
  induction rem with
  | zero =>
    intro c tr res h e he msg hmsg
    rw [runSamples] at h
    obtain ⟨h1, -⟩ := Prod.mk.injEq .. ▸ h
    rw [← h1] at he
    cases he
  | succ rem ih =>
    intro c tr res h e he msg hmsg
    rcases runSamples_succ_inv h with ⟨msg', hr, htr, hres⟩ | ⟨t, hr, hdv, htr, hres⟩ |
      ⟨t, dv, tr', res', hr, hdv, hS, htr, hrest⟩
    · subst htr
      rw [List.mem_singleton] at he
      subst he
      rw [hmsg] at hr
      cases hr
      exact hres
    · subst htr
      rw [List.mem_singleton] at he
      subst he
      rw [hmsg] at hr
      cases hr
    · subst htr
      rw [List.mem_cons] at he
      rcases he with he | he
      · subst he
        rw [hmsg] at hr
        cases hr
      · have hres' := ih (c + 1) tr' res' hS e he msg hmsg
        rcases hrest with ⟨e0, hre, hres⟩ | ⟨outs, js, ps, hre, hres⟩
        · rw [hre] at hres'
          cases hres'
          exact hres
        · rw [hre] at hres'
          cases hres'

/-- An unparseable response at any invocation of the sample-loop trace
makes the loop's result exactly the parse-failure error for this model
and response. -/
theorem runSamples_parse_error (env : Env) (o : Option (List String)) (pv md pr : String)
    (i j : Nat) (pp : Bool) :
    ∀ rem c tr res, runSamples env o pv md pr i j pp rem c = (tr, res) →
      ∀ e ∈ tr, ∀ t, env.respond i j e.sample = Except.ok t →
        (parseModelResponse t o).decisionVector = none →
        res = Except.error (ErrKind.parseFailure md t) := by
  intro rem
  induction rem with
  | zero =>
    intro c tr res h e he t ht hdv0
    rw [runSamples] at h
    obtain ⟨h1, -⟩ := Prod.mk.injEq .. ▸ h
    rw [← h1] at he
    cases he
  | succ rem ih =>
    intro c tr res h e he t ht hdv0
    rcases runSamples_succ_inv h with ⟨msg', hr, htr, hres⟩ | ⟨t', hr, hdv, htr, hres⟩ |
      ⟨t', dv, tr', res', hr, hdv, hS, htr, hrest⟩
    · subst htr
      rw [List.mem_singleton] at he
      subst he
      rw [ht] at hr
      cases hr
    · subst htr
      rw [List.mem_singleton] at he
      subst he
      rw [ht] at hr
      cases hr
      exact hres
    · subst htr
      rw [List.mem_cons] at he
      rcases he with he | he
      · subst he
        rw [ht] at hr
        cases hr
        rw [hdv0] at hdv
        cases hdv
      · have hres' := ih (c + 1) tr' res' hS e he t ht hdv0
        rcases hrest with ⟨e0, hre, hres⟩ | ⟨outs, js, ps, hre, hres⟩
        · rw [hre] at hres'
          cases hres'
          exact hres
        · rw [hre] at hres'
          cases hres'

/-- When the sample loop succeeds in a feedback-pushing round, the
non-empty justification of every invocation in its trace is contained in
one of the returned `previousIterationResponses` additions. -/
theorem runSamples_just_in_ps (env : Env) (o : Option (List String)) (pv md pr : String)
    (i j : Nat) :
    ∀ rem c tr outs js ps, runSamples env o pv md pr i j true rem c = (tr, Except.ok (outs, js, ps)) →
      ∀ e ∈ tr, ∀ t, env.respond i j e.sample = Except.ok t →
        ((parseModelResponse t o).justification == "") = false →
        ∃ p ∈ ps, strSub (parseModelResponse t o).justification p := by
  intro rem
  induction rem with
  | zero =>
    intro c tr outs js ps h e he t ht hj
    rw [runSamples] at h
    obtain ⟨h1, -⟩ := Prod.mk.injEq .. ▸ h
    rw [← h1] at he
    cases he
  | succ rem ih =>
    intro c tr outs js ps h e he t ht hj
    rcases runSamples_succ_inv h with ⟨msg', hr, htr, hres⟩ | ⟨t', hr, hdv, htr, hres⟩ |
      ⟨t', dv, tr', res', hr, hdv, hS, htr, hrest⟩
    · cases hres
    · cases hres
    · subst htr
      rcases hrest with ⟨e0, hre, hres⟩ | ⟨outs', js', ps', hre, hres⟩
      · cases hres
      · rw [List.mem_cons] at he
        simp only [Except.ok.injEq, Prod.mk.injEq] at hres
        obtain ⟨-, -, hps⟩ := hres
        rcases he with he | he
        · subst he
          rw [ht] at hr
          cases hr
          refine ⟨formattedResponse pv md dv (parseModelResponse t o).justification, ?_, ?_⟩
          · rw [hps]
            apply List.mem_append_left
            rw [hj]
            simp
          · exact strSub_formattedResponse pv md dv _
        · obtain ⟨p, hp, hsub⟩ := ih (c + 1) tr' outs' js' ps' (hre ▸ hS) e he t ht hj
          refine ⟨p, ?_, hsub⟩
          rw [hps]
          exact List.mem_append_right _ hp


/-- One-step inversion of the model loop. -/
theorem runModels_cons_inv {env : Env} {o : Option (List String)} {prompt : String}
    {i iterations : Nat} {mi : ModelInput} {rest : List ModelInput} {j : Nat}
    {prevResps : List String} {tr : List CallEvent}
    {res : Except ErrKind (List (List ℚ) × List ℚ × List String × List String)}
    (h : runModels env o prompt i iterations (mi :: rest) j prevResps = (tr, res)) :
    (modelCheckFails mi = true ∧ tr = [] ∧ res = Except.error ErrKind.invalidModel) ∨
    (modelCheckFails mi = false ∧ env.providerOk mi.provider = false ∧ tr = [] ∧
      res = Except.error (ErrKind.providerError ("Unsupported provider: " ++ mi.provider))) ∨
    (modelCheckFails mi = false ∧ env.providerOk mi.provider = true ∧
      ∃ tr1 res1, runSamples env o mi.provider mi.model (buildPrompt o prompt i prevResps) i j
          (decide (i < iterations - 1)) (effCount mi.count) 0 = (tr1, res1) ∧
      ((∃ e, res1 = Except.error e ∧ tr = tr1 ∧ res = Except.error e) ∨
       (∃ allOutputs js1 ps1, res1 = Except.ok (allOutputs, js1, ps1) ∧
        ∃ tr2 res2, runModels env o prompt i iterations rest (j + 1) (prevResps ++ ps1) = (tr2, res2) ∧
          tr = tr1 ++ tr2 ∧
          ((∃ e, res2 = Except.error e ∧ res = Except.error e) ∨
           (∃ outs ws js2 ps2, res2 = Except.ok (outs, ws, js2, ps2) ∧
            res = Except.ok (modelAverage (effCount mi.count) allOutputs :: outs,
              mi.weight :: ws, js1 ++ js2, ps1 ++ ps2)))))) := by
  rw [runModels] at h
  cases hc : modelCheckFails mi with
  | true =>
    rw [if_pos hc] at h
    obtain ⟨h1, h2⟩ := Prod.mk.injEq .. ▸ h
    exact Or.inl ⟨rfl, h1.symm, h2.symm⟩
  | false =>
    rw [if_neg (by rw [hc]; simp)] at h
    cases hpo : env.providerOk mi.provider with
    | false =>
      rw [if_pos (by rw [hpo]; rfl)] at h
      obtain ⟨h1, h2⟩ := Prod.mk.injEq .. ▸ h
      exact Or.inr (Or.inl ⟨rfl, rfl, h1.symm, h2.symm⟩)
    | true =>
      rw [if_neg (by rw [hpo]; simp)] at h
      rcases hS : runSamples env o mi.provider mi.model (buildPrompt o prompt i prevResps) i j
          (decide (i < iterations - 1)) (effCount mi.count) 0 with ⟨tr1, res1⟩
      simp only [hS] at h
      cases res1 with
      | error e =>
        obtain ⟨h1, h2⟩ := Prod.mk.injEq .. ▸ h
        exact Or.inr (Or.inr ⟨rfl, rfl, tr1, Except.error e, rfl,
          Or.inl ⟨e, rfl, h1.symm, h2.symm⟩⟩)
      | ok v1 =>
        obtain ⟨allOutputs, js1, ps1⟩ := v1
        rcases hM : runModels env o prompt i iterations rest (j + 1) (prevResps ++ ps1) with ⟨tr2, res2⟩
        simp only [hM] at h
        cases res2 with
        | error e =>
          obtain ⟨h1, h2⟩ := Prod.mk.injEq .. ▸ h
          exact Or.inr (Or.inr ⟨rfl, rfl, tr1, Except.ok (allOutputs, js1, ps1), rfl,
            Or.inr ⟨allOutputs, js1, ps1, rfl, tr2, Except.error e, hM, h1.symm,
              Or.inl ⟨e, rfl, h2.symm⟩⟩⟩)
        | ok v2 =>
          obtain ⟨outs, ws, js2, ps2⟩ := v2
          obtain ⟨h1, h2⟩ := Prod.mk.injEq .. ▸ h
          exact Or.inr (Or.inr ⟨rfl, rfl, tr1, Except.ok (allOutputs, js1, ps1), rfl,
            Or.inr ⟨allOutputs, js1, ps1, rfl, tr2, Except.ok (outs, ws, js2, ps2), hM, h1.symm,
              Or.inr ⟨outs, ws, js2, ps2, rfl, h2.symm⟩⟩⟩)

/-- Every event of a model-loop trace belongs to a listed model whose
per-model check (provider, model, weight bounds) passed, and carries
this round's index. -/
theorem runModels_trace_models (env : Env) (o : Option (List String)) (prompt : String)
    (i iterations : Nat) :
    ∀ ms j prevResps tr res, runModels env o prompt i iterations ms j prevResps = (tr, res) →
      ∀ e ∈ tr, ∃ idx mi, ms.get? idx = some mi ∧ e.modelIdx = j + idx ∧
        modelCheckFails mi = false ∧ e.round = i := by
  intro ms
  induction ms with
  | nil =>
    intro j prevResps tr res h e he
    rw [runModels] at h
    obtain ⟨h1, -⟩ := Prod.mk.injEq .. ▸ h
    rw [← h1] at he
    cases he
  | cons mi rest ih =>
    intro j prevResps tr res h e he
    rcases runModels_cons_inv h with ⟨hc, htr, hres⟩ | ⟨hc, hpo, htr, hres⟩ |
      ⟨hc, hpo, tr1, res1, hS, hrest⟩
    · subst htr; cases he
    · subst htr; cases he
    · have hmem : e ∈ tr1 ∨ ∃ tr2 res2 ps1,
          runModels env o prompt i iterations rest (j + 1) (prevResps ++ ps1) = (tr2, res2) ∧
          e ∈ tr2 := by
        rcases hrest with ⟨e0, hre, htr, hres⟩ | ⟨allOutputs, js1, ps1, hre, tr2, res2, hM, htr, hrest2⟩
        · subst htr; exact Or.inl he
        · subst htr
          rcases List.mem_append.mp he with he | he
          · exact Or.inl he
          · exact Or.inr ⟨tr2, res2, ps1, hM, he⟩
      rcases hmem with he1 | ⟨tr2, res2, ps1, hM, he2⟩
      · obtain ⟨hr, hm, -⟩ := runSamples_trace_shape env o mi.provider mi.model _ i j _ _ _ _ _ hS e he1
        exact ⟨0, mi, rfl, by omega, hc, hr⟩
      · obtain ⟨idx, mi', hget, hmi, hcheck, hr⟩ := ih (j + 1) (prevResps ++ ps1) tr2 res2 hM e he2
        exact ⟨idx + 1, mi', by simpa using hget, by omega, hcheck, hr⟩

/-- When the model loop succeeds, every invocation in its trace got a
response that parsed to a decision vector. -/
theorem runModels_ok_calls (env : Env) (o : Option (List String)) (prompt : String)
    (i iterations : Nat) :
    ∀ ms j prevResps tr v, runModels env o prompt i iterations ms j prevResps = (tr, Except.ok v) →
      ∀ e ∈ tr, ∃ t dv, env.respond e.round e.modelIdx e.sample = Except.ok t ∧
        (parseModelResponse t o).decisionVector = some dv := by
  intro ms
  induction ms with
  | nil =>
    intro j prevResps tr v h e he
    rw [runModels] at h
    obtain ⟨h1, -⟩ := Prod.mk.injEq .. ▸ h
    rw [← h1] at he
    cases he
  | cons mi rest ih =>
    intro j prevResps tr v h e he
    rcases runModels_cons_inv h with ⟨hc, htr, hres⟩ | ⟨hc, hpo, htr, hres⟩ |
      ⟨hc, hpo, tr1, res1, hS, hrest⟩
    · cases hres
    · cases hres
    · rcases hrest with ⟨e0, hre, htr, hres⟩ | ⟨allOutputs, js1, ps1, hre, tr2, res2, hM, htr, hrest2⟩
      · cases hres
      · subst htr
        rcases List.mem_append.mp he with he | he
        · obtain ⟨hr, hm, -⟩ := runSamples_trace_shape env o mi.provider mi.model _ i j _ _ _ _ _ hS e he
          obtain ⟨t, dv, hresp, hdv⟩ :=
            runSamples_ok_calls env o mi.provider mi.model _ i j _ _ _ _ _ (hre ▸ hS) e he
          exact ⟨t, dv, by rw [hr, hm]; exact hresp, hdv⟩
        · rcases hrest2 with ⟨e0, hre2, hres⟩ | ⟨outs, ws, js2, ps2, hre2, hres⟩
          · cases hres
          · exact ih (j + 1) (prevResps ++ ps1) tr2 (outs, ws, js2, ps2) (hre2 ▸ hM) e he

/-- A connector failure at any invocation of the model-loop trace makes
the loop's result exactly that provider error. -/
theorem runModels_respond_error (env : Env) (o : Option (List String)) (prompt : String)
    (i iterations : Nat) :
    ∀ ms j prevResps tr res, runModels env o prompt i iterations ms j prevResps = (tr, res) →
      ∀ e ∈ tr, ∀ msg, env.respond e.round e.modelIdx e.sample = Except.error msg →
        res = Except.error (ErrKind.providerError msg) := by
  intro ms
  induction ms with
  | nil =>
    intro j prevResps tr res h e he msg hmsg
    rw [runModels] at h
    obtain ⟨h1, -⟩ := Prod.mk.injEq .. ▸ h
    rw [← h1] at he
    cases he
  | cons mi rest ih =>
    intro j prevResps tr res h e he msg hmsg
    rcases runModels_cons_inv h with ⟨hc, htr, hres⟩ | ⟨hc, hpo, htr, hres⟩ |
      ⟨hc, hpo, tr1, res1, hS, hrest⟩
    · subst htr; cases he
    · subst htr; cases he
    · rcases hrest with ⟨e0, hre, htr, hres⟩ | ⟨allOutputs, js1, ps1, hre, tr2, res2, hM, htr, hrest2⟩
      · subst htr
        obtain ⟨hr, hm, -⟩ := runSamples_trace_shape env o mi.provider mi.model _ i j _ _ _ _ _ hS e he
        have := runSamples_respond_error env o mi.provider mi.model _ i j _ _ _ _ _ hS e he msg
          (by rw [← hr, ← hm]; exact hmsg)
        rw [hre] at this
        cases this
        exact hres
      · subst htr
        rcases List.mem_append.mp he with he | he
        · obtain ⟨hr, hm, -⟩ := runSamples_trace_shape env o mi.provider mi.model _ i j _ _ _ _ _ hS e he
          have := runSamples_respond_error env o mi.provider mi.model _ i j _ _ _ _ _ hS e he msg
            (by rw [← hr, ← hm]; exact hmsg)
          rw [hre] at this
          cases this
        · have hres2 := ih (j + 1) (prevResps ++ ps1) tr2 res2 hM e he msg hmsg
          rcases hrest2 with ⟨e0, hre2, hres⟩ | ⟨outs, ws, js2, ps2, hre2, hres⟩
          · rw [hre2] at hres2
            cases hres2
            exact hres
          · rw [hre2] at hres2
            cases hres2

/-- An unparseable response at any invocation of the model-loop trace
makes the loop's result a parse-failure error carrying that response. -/
theorem runModels_parse_error (env : Env) (o : Option (List String)) (prompt : String)
    (i iterations : Nat) :
    ∀ ms j prevResps tr res, runModels env o prompt i iterations ms j prevResps = (tr, res) →
      ∀ e ∈ tr, ∀ t, env.respond e.round e.modelIdx e.sample = Except.ok t →
        (parseModelResponse t o).decisionVector = none →
        ∃ md, res = Except.error (ErrKind.parseFailure md t) := by
  intro ms
  induction ms with
  | nil =>
    intro j prevResps tr res h e he t ht hdv
    rw [runModels] at h
    obtain ⟨h1, -⟩ := Prod.mk.injEq .. ▸ h
    rw [← h1] at he
    cases he
  | cons mi rest ih =>
    intro j prevResps tr res h e he t ht hdv
    rcases runModels_cons_inv h with ⟨hc, htr, hres⟩ | ⟨hc, hpo, htr, hres⟩ |
      ⟨hc, hpo, tr1, res1, hS, hrest⟩
    · subst htr; cases he
    · subst htr; cases he
    · rcases hrest with ⟨e0, hre, htr, hres⟩ | ⟨allOutputs, js1, ps1, hre, tr2, res2, hM, htr, hrest2⟩
      · subst htr
        obtain ⟨hr, hm, -⟩ := runSamples_trace_shape env o mi.provider mi.model _ i j _ _ _ _ _ hS e he
        have := runSamples_parse_error env o mi.provider mi.model _ i j _ _ _ _ _ hS e he t
          (by rw [← hr, ← hm]; exact ht) hdv
        rw [hre] at this
        cases this
        exact ⟨mi.model, hres⟩
      · subst htr
        rcases List.mem_append.mp he with he | he
        · obtain ⟨hr, hm, -⟩ := runSamples_trace_shape env o mi.provider mi.model _ i j _ _ _ _ _ hS e he
          have := runSamples_parse_error env o mi.provider mi.model _ i j _ _ _ _ _ hS e he t
            (by rw [← hr, ← hm]; exact ht) hdv
          rw [hre] at this
          cases this
        · obtain ⟨md, hres2⟩ := ih (j + 1) (prevResps ++ ps1) tr2 res2 hM e he t ht hdv
          rcases hrest2 with ⟨e0, hre2, hres⟩ | ⟨outs, ws, js2, ps2, hre2, hres⟩
          · rw [hre2] at hres2
            cases hres2
            exact ⟨md, hres⟩
          · rw [hre2] at hres2
            cases hres2

/-- In a feedback round (`i > 0`), every prompt in the model-loop trace
contains each previously accumulated response. -/
theorem runModels_prompts_contain (env : Env) (o : Option (List String)) (prompt : String)
    (iterations : Nat) {i : Nat} (hi : 0 < i) :
    ∀ ms j prevResps tr res, runModels env o prompt i iterations ms j prevResps = (tr, res) →
      ∀ e ∈ tr, ∀ s ∈ prevResps, strSub s e.prompt := by
  intro ms
  induction ms with
  | nil =>
    intro j prevResps tr res h e he s hs
    rw [runModels] at h
    obtain ⟨h1, -⟩ := Prod.mk.injEq .. ▸ h
    rw [← h1] at he
    cases he
  | cons mi rest ih =>
    intro j prevResps tr res h e he s hs
    rcases runModels_cons_inv h with ⟨hc, htr, hres⟩ | ⟨hc, hpo, htr, hres⟩ |
      ⟨hc, hpo, tr1, res1, hS, hrest⟩
    · subst htr; cases he
    · subst htr; cases he
    · have hsub1 : e ∈ tr1 → strSub s e.prompt := by
        intro he1
        obtain ⟨-, -, hp⟩ := runSamples_trace_shape env o mi.provider mi.model _ i j _ _ _ _ _ hS e he1
        rw [hp]
        exact strSub_buildPrompt hi hs
      rcases hrest with ⟨e0, hre, htr, hres⟩ | ⟨allOutputs, js1, ps1, hre, tr2, res2, hM, htr, hrest2⟩
      · subst htr
        exact hsub1 he
      · subst htr
        rcases List.mem_append.mp he with he | he
        · exact hsub1 he
        · exact ih (j + 1) (prevResps ++ ps1) tr2 res2 hM e he s (List.mem_append_left _ hs)

/-- When the model loop succeeds in a feedback-pushing round, the
non-empty justification of every invocation in its trace is contained in
one of the returned `previousIterationResponses` additions. -/
theorem runModels_just_in_ps (env : Env) (o : Option (List String)) (prompt : String)
    {i iterations : Nat} (hlt : i < iterations - 1) :
    ∀ ms j prevResps tr outs ws js ps,
      runModels env o prompt i iterations ms j prevResps = (tr, Except.ok (outs, ws, js, ps)) →
      ∀ e ∈ tr, ∀ t, env.respond e.round e.modelIdx e.sample = Except.ok t →
        ((parseModelResponse t o).justification == "") = false →
        ∃ p ∈ ps, strSub (parseModelResponse t o).justification p := by
  intro ms
  induction ms with
  | nil =>
    intro j prevResps tr outs ws js ps h e he t ht hj
    rw [runModels] at h
    obtain ⟨h1, -⟩ := Prod.mk.injEq .. ▸ h
    rw [← h1] at he
    cases he
  | cons mi rest ih =>
    intro j prevResps tr outs ws js ps h e he t ht hj
    rcases runModels_cons_inv h with ⟨hc, htr, hres⟩ | ⟨hc, hpo, htr, hres⟩ |
      ⟨hc, hpo, tr1, res1, hS, hrest⟩
    · cases hres
    · cases hres
    · rcases hrest with ⟨e0, hre, htr, hres⟩ | ⟨allOutputs, js1, ps1, hre, tr2, res2, hM, htr, hrest2⟩
      · cases hres
      · rcases hrest2 with ⟨e0, hre2, hres⟩ | ⟨outs2, ws2, js2, ps2, hre2, hres⟩
        · cases hres
        · simp only [Except.ok.injEq, Prod.mk.injEq] at hres
          obtain ⟨-, -, -, hps⟩ := hres
          subst htr
          rcases List.mem_append.mp he with he | he
          · obtain ⟨hr, hm, -⟩ := runSamples_trace_shape env o mi.provider mi.model _ i j _ _ _ _ _ hS e he
            rw [show (decide (i < iterations - 1)) = true from decide_eq_true hlt] at hS
            obtain ⟨p, hp, hsub⟩ := runSamples_just_in_ps env o mi.provider mi.model _ i j
              _ _ _ _ _ _ (hre ▸ hS) e he t (by rw [← hr, ← hm]; exact ht) hj
            refine ⟨p, ?_, hsub⟩
            rw [hps]
            exact List.mem_append_left _ hp
          · obtain ⟨p, hp, hsub⟩ := ih (j + 1) (prevResps ++ ps1) tr2 outs2 ws2 js2 ps2
              (hre2 ▸ hM) e he t ht hj
            refine ⟨p, ?_, hsub⟩
            rw [hps]
            exact List.mem_append_right _ hp

/-- A successful model loop returns one averaged vector and one weight
per model. -/
theorem runModels_ok_lengths (env : Env) (o : Option (List String)) (prompt : String)
    (i iterations : Nat) :
    ∀ ms j prevResps tr outs ws js ps,
      runModels env o prompt i iterations ms j prevResps = (tr, Except.ok (outs, ws, js, ps)) →
      outs.length = ws.length := by
  intro ms
  induction ms with
  | nil =>
    intro j prevResps tr outs ws js ps h
    rw [runModels] at h
    obtain ⟨-, h2⟩ := Prod.mk.injEq .. ▸ h
    simp only [Except.ok.injEq, Prod.mk.injEq] at h2
    obtain ⟨houts, hws, -⟩ := h2
    rw [← houts, ← hws]
    rfl
  | cons mi rest ih =>
    intro j prevResps tr outs ws js ps h
    rcases runModels_cons_inv h with ⟨hc, htr, hres⟩ | ⟨hc, hpo, htr, hres⟩ |
      ⟨hc, hpo, tr1, res1, hS, hrest⟩
    · cases hres
    · cases hres
    · rcases hrest with ⟨e0, hre, htr, hres⟩ | ⟨allOutputs, js1, ps1, hre, tr2, res2, hM, htr, hrest2⟩
      · cases hres
      · rcases hrest2 with ⟨e0, hre2, hres⟩ | ⟨outs2, ws2, js2, ps2, hre2, hres⟩
        · cases hres
        · simp only [Except.ok.injEq, Prod.mk.injEq] at hres
          obtain ⟨houts, hws, -⟩ := hres
          rw [houts, hws]
          simp only [List.length_cons]
          rw [ih (j + 1) (prevResps ++ ps1) tr2 outs2 ws2 js2 ps2 (hre2 ▸ hM)]

/-- One-step inversion of the round loop. -/
theorem runRounds_succ_inv {env : Env} {o : Option (List String)} {prompt : String}
    {models : List ModelInput} {iterations rem i : Nat} {prevResps : List String}
    {tr : List CallEvent} {res : Except ErrKind (List ℚ × List (List ℚ) × List ℚ × String)}
    (h : runRounds env o prompt models iterations (Nat.succ rem) i prevResps = (tr, res)) :
    ∃ trM resM, runModels env o prompt i iterations models 0 prevResps = (trM, resM) ∧
    ((∃ e, resM = Except.error e ∧ tr = trM ∧ res = Except.error e) ∨
     (∃ outs ws justs prevAdds, resM = Except.ok (outs, ws, justs, prevAdds) ∧
      ((i + 1 = iterations ∧
        ((env.justifierOk = false ∧ tr = trM ∧
           res = Except.error (ErrKind.internalError
             ("Unsupported provider: " ++ env.justifierProviderName))) ∨
         (env.justifierOk = true ∧
          ((∃ msg, env.justify (justifierPrompt (computeAverageVectors outs ws) justs) =
              Except.error msg ∧ tr = trM ∧ res = Except.error (ErrKind.internalError msg)) ∨
           (∃ fj, env.justify (justifierPrompt (computeAverageVectors outs ws) justs) =
              Except.ok fj ∧ tr = trM ∧
              res = Except.ok (computeAverageVectors outs ws, outs, ws, fj)))))) ∨
       (¬ (i + 1 = iterations) ∧
        ∃ tr2 res2, runRounds env o prompt models iterations rem (i + 1) (prevResps ++ prevAdds) =
            (tr2, res2) ∧ tr = trM ++ tr2 ∧ res = res2)))) := by
  rw [runRounds] at h
  split at h
  next trM e heq =>
    obtain ⟨h1, h2⟩ := Prod.mk.injEq .. ▸ h
    exact ⟨trM, _, heq, Or.inl ⟨e, rfl, h1.symm, h2.symm⟩⟩
  next trM outs ws justs prevAdds heq =>
    by_cases hlast : i + 1 = iterations
    · rw [if_pos hlast] at h
      cases hjo : env.justifierOk with
      | false =>
        rw [hjo] at h
        simp only [Bool.not_false, if_true] at h
        obtain ⟨h1, h2⟩ := Prod.mk.injEq .. ▸ h
        exact ⟨trM, _, heq, Or.inr ⟨outs, ws, justs, prevAdds, rfl,
          Or.inl ⟨hlast, Or.inl ⟨rfl, h1.symm, h2.symm⟩⟩⟩⟩
      | true =>
        rw [hjo] at h
        simp only [Bool.not_true, Bool.false_eq_true, if_false] at h
        split at h
        next msg hjust =>
          obtain ⟨h1, h2⟩ := Prod.mk.injEq .. ▸ h
          exact ⟨trM, _, heq, Or.inr ⟨outs, ws, justs, prevAdds, rfl,
            Or.inl ⟨hlast, Or.inr ⟨rfl, Or.inl ⟨msg, hjust, h1.symm, h2.symm⟩⟩⟩⟩⟩
        next fj hjust =>
          obtain ⟨h1, h2⟩ := Prod.mk.injEq .. ▸ h
          exact ⟨trM, _, heq, Or.inr ⟨outs, ws, justs, prevAdds, rfl,
            Or.inl ⟨hlast, Or.inr ⟨rfl, Or.inr ⟨fj, hjust, h1.symm, h2.symm⟩⟩⟩⟩⟩
    · rw [if_neg hlast] at h
      rcases hR : runRounds env o prompt models iterations rem (i + 1) (prevResps ++ prevAdds)
        with ⟨tr2, res2⟩
      simp only [hR] at h
      obtain ⟨h1, h2⟩ := Prod.mk.injEq .. ▸ h
      exact ⟨trM, _, heq, Or.inr ⟨outs, ws, justs, prevAdds, rfl,
        Or.inr ⟨hlast, tr2, res2, hR, h1.symm, h2.symm⟩⟩⟩

/-- A successful round loop returns the aggregate computed by
`computeAverageVectors` from the last round's per-model vectors and
weights, with one weight per vector. -/
theorem runRounds_ok_agg (env : Env) (o : Option (List String)) (prompt : String)
    (models : List ModelInput) (iterations : Nat) :
    ∀ rem i prevResps tr agg outs ws fj,
      runRounds env o prompt models iterations rem i prevResps =
        (tr, Except.ok (agg, outs, ws, fj)) →
      agg = computeAverageVectors outs ws ∧ outs.length = ws.length := by
  intro rem
  induction rem with
  | zero =>
    intro i prevResps tr agg outs ws fj h
    rw [runRounds] at h
    obtain ⟨-, h2⟩ := Prod.mk.injEq .. ▸ h
    simp only [Except.ok.injEq, Prod.mk.injEq] at h2
    obtain ⟨hagg, houts, hws, -⟩ := h2
    rw [← hagg, ← houts, ← hws]
    exact ⟨rfl, rfl⟩
  | succ rem ih =>
    intro i prevResps tr agg outs ws fj h
    obtain ⟨trM, resM, hM, hrest⟩ := runRounds_succ_inv h
    rcases hrest with ⟨e, hre, htr, hres⟩ | ⟨outs1, ws1, justs1, prevAdds1, hre, hrest⟩
    · cases hres
    · rcases hrest with ⟨hlast, hjb⟩ | ⟨hnl, tr2, res2, hR, htr, hres⟩
      · rcases hjb with ⟨hjo, htr, hres⟩ | ⟨hjo, hjb2⟩
        · cases hres
        · rcases hjb2 with ⟨msg, hjust, htr, hres⟩ | ⟨fj2, hjust, htr, hres⟩
          · cases hres
          · simp only [Except.ok.injEq, Prod.mk.injEq] at hres
            obtain ⟨hagg, houts, hws, -⟩ := hres
            subst hagg houts hws
            exact ⟨rfl, runModels_ok_lengths env o prompt i iterations models 0 prevResps trM
              outs ws justs1 prevAdds1 (hre ▸ hM)⟩
      · exact ih (i + 1) (prevResps ++ prevAdds1) tr2 agg outs ws fj (hres ▸ hR)

/-- Round indices in the round-loop trace lie between the current round
and the iteration bound. -/
theorem runRounds_round_bounds (env : Env) (o : Option (List String)) (prompt : String)
    (models : List ModelInput) (iterations : Nat) :
    ∀ rem i prevResps tr res, i + rem = iterations →
      runRounds env o prompt models iterations rem i prevResps = (tr, res) →
      ∀ e ∈ tr, i ≤ e.round ∧ e.round < iterations := by
  intro rem
  induction rem with
  | zero =>
    intro i prevResps tr res hinv h e he
    rw [runRounds] at h
    obtain ⟨h1, -⟩ := Prod.mk.injEq .. ▸ h
    rw [← h1] at he
    cases he
  | succ rem ih =>
    intro i prevResps tr res hinv h e he
    obtain ⟨trM, resM, hM, hrest⟩ := runRounds_succ_inv h
    have hround : e ∈ trM → i ≤ e.round ∧ e.round < iterations := by
      intro heM
      obtain ⟨-, -, -, -, -, hr⟩ :=
        runModels_trace_models env o prompt i iterations models 0 prevResps trM resM hM e heM
      omega
    rcases hrest with ⟨e0, hre, htr, hres⟩ | ⟨outs1, ws1, justs1, prevAdds1, hre, hrest⟩
    · subst htr
      exact hround he
    · rcases hrest with ⟨hlast, hjb⟩ | ⟨hnl, tr2, res2, hR, htr, hres⟩
      · have htr : tr = trM := by
          rcases hjb with ⟨-, htr, -⟩ | ⟨-, hjb2⟩
          · exact htr
          · rcases hjb2 with ⟨msg, -, htr, -⟩ | ⟨fj2, -, htr, -⟩ <;> exact htr
        subst htr
        exact hround he
      · subst htr
        rcases List.mem_append.mp he with he | he
        · exact hround he
        · have := ih (i + 1) (prevResps ++ prevAdds1) tr2 res2 (by omega) hR e he
          omega

/-- When the round loop succeeds, every invocation in its trace got a
response that parsed to a decision vector. -/
theorem runRounds_ok_calls (env : Env) (o : Option (List String)) (prompt : String)
    (models : List ModelInput) (iterations : Nat) :
    ∀ rem i prevResps tr v,
      runRounds env o prompt models iterations rem i prevResps = (tr, Except.ok v) →
      ∀ e ∈ tr, ∃ t dv, env.respond e.round e.modelIdx e.sample = Except.ok t ∧
        (parseModelResponse t o).decisionVector = some dv := by
  intro rem
  induction rem with
  | zero =>
    intro i prevResps tr v h e he
    rw [runRounds] at h
    obtain ⟨h1, -⟩ := Prod.mk.injEq .. ▸ h
    rw [← h1] at he
    cases he
  | succ rem ih =>
    intro i prevResps tr v h e he
    obtain ⟨trM, resM, hM, hrest⟩ := runRounds_succ_inv h
    rcases hrest with ⟨e0, hre, htr, hres⟩ | ⟨outs1, ws1, justs1, prevAdds1, hre, hrest⟩
    · cases hres
    · rcases hrest with ⟨hlast, hjb⟩ | ⟨hnl, tr2, res2, hR, htr, hres⟩
      · have htr : tr = trM := by
          rcases hjb with ⟨-, htr, hres⟩ | ⟨-, hjb2⟩
          · cases hres
          · rcases hjb2 with ⟨msg, -, htr, hres⟩ | ⟨fj2, -, htr, -⟩
            · cases hres
            · exact htr
        subst htr
        exact runModels_ok_calls env o prompt i iterations models 0 prevResps _ _ (hre ▸ hM) e he
      · subst htr
        rcases List.mem_append.mp he with he | he
        · exact runModels_ok_calls env o prompt i iterations models 0 prevResps _ _ (hre ▸ hM) e he
        · exact ih (i + 1) (prevResps ++ prevAdds1) tr2 v (hres ▸ hR) e he

/-- A connector failure at any invocation of the round-loop trace makes
the loop's result exactly that provider error. -/
theorem runRounds_respond_error (env : Env) (o : Option (List String)) (prompt : String)
    (models : List ModelInput) (iterations : Nat) :
    ∀ rem i prevResps tr res,
      runRounds env o prompt models iterations rem i prevResps = (tr, res) →
      ∀ e ∈ tr, ∀ msg, env.respond e.round e.modelIdx e.sample = Except.error msg →
        res = Except.error (ErrKind.providerError msg) := by
  intro rem
  induction rem with
  | zero =>
    intro i prevResps tr res h e he msg hmsg
    rw [runRounds] at h
    obtain ⟨h1, -⟩ := Prod.mk.injEq .. ▸ h
    rw [← h1] at he
    cases he
  | succ rem ih =>
    intro i prevResps tr res h e he msg hmsg
    obtain ⟨trM, resM, hM, hrest⟩ := runRounds_succ_inv h
    have hfail : e ∈ trM → resM = Except.error (ErrKind.providerError msg) := fun heM =>
      runModels_respond_error env o prompt i iterations models 0 prevResps trM resM hM e heM msg hmsg
    rcases hrest with ⟨e0, hre, htr, hres⟩ | ⟨outs1, ws1, justs1, prevAdds1, hre, hrest⟩
    · subst htr
      have := hfail he
      rw [hre] at this
      cases this
      exact hres
    · rcases hrest with ⟨hlast, hjb⟩ | ⟨hnl, tr2, res2, hR, htr, hres⟩
      · have htr : tr = trM := by
          rcases hjb with ⟨-, htr, -⟩ | ⟨-, hjb2⟩
          · exact htr
          · rcases hjb2 with ⟨msg2, -, htr, -⟩ | ⟨fj2, -, htr, -⟩ <;> exact htr
        subst htr
        have := hfail he
        rw [hre] at this
        cases this
      · subst htr
        rcases List.mem_append.mp he with he | he
        · have := hfail he
          rw [hre] at this
          cases this
        · rw [hres]
          exact ih (i + 1) (prevResps ++ prevAdds1) tr2 res2 hR e he msg hmsg

/-- An unparseable response at any invocation of the round-loop trace
makes the loop's result a parse-failure error carrying that response. -/
theorem runRounds_parse_error (env : Env) (o : Option (List String)) (prompt : String)
    (models : List ModelInput) (iterations : Nat) :
    ∀ rem i prevResps tr res,
      runRounds env o prompt models iterations rem i prevResps = (tr, res) →
      ∀ e ∈ tr, ∀ t, env.respond e.round e.modelIdx e.sample = Except.ok t →
        (parseModelResponse t o).decisionVector = none →
        ∃ md, res = Except.error (ErrKind.parseFailure md t) := by
  intro rem
  induction rem with
  | zero =>
    intro i prevResps tr res h e he t ht hdv
    rw [runRounds] at h
    obtain ⟨h1, -⟩ := Prod.mk.injEq .. ▸ h
    rw [← h1] at he
    cases he
  | succ rem ih =>
    intro i prevResps tr res h e he t ht hdv
    obtain ⟨trM, resM, hM, hrest⟩ := runRounds_succ_inv h
    have hfail : e ∈ trM → ∃ md, resM = Except.error (ErrKind.parseFailure md t) := fun heM =>
      runModels_parse_error env o prompt i iterations models 0 prevResps trM resM hM e heM t ht hdv
    rcases hrest with ⟨e0, hre, htr, hres⟩ | ⟨outs1, ws1, justs1, prevAdds1, hre, hrest⟩
    · subst htr
      obtain ⟨md, hmd⟩ := hfail he
      rw [hre] at hmd
      cases hmd
      exact ⟨md, hres⟩
    · rcases hrest with ⟨hlast, hjb⟩ | ⟨hnl, tr2, res2, hR, htr, hres⟩
      · have htr : tr = trM := by
          rcases hjb with ⟨-, htr, -⟩ | ⟨-, hjb2⟩
          · exact htr
          · rcases hjb2 with ⟨msg2, -, htr, -⟩ | ⟨fj2, -, htr, -⟩ <;> exact htr
        subst htr
        obtain ⟨md, hmd⟩ := hfail he
        rw [hre] at hmd
        cases hmd
      · subst htr
        rcases List.mem_append.mp he with he | he
        · obtain ⟨md, hmd⟩ := hfail he
          rw [hre] at hmd
          cases hmd
        · rw [hres]
          exact ih (i + 1) (prevResps ++ prevAdds1) tr2 res2 hR e he t ht hdv

/-- Prompt-feedback invariant of the round loop: (a) in feedback rounds
every prompt contains each previously accumulated response, and (b) the
justification parsed from any earlier-round response is contained in the
prompt of every later-round invocation. -/
theorem runRounds_cross_round (env : Env) (o : Option (List String)) (prompt : String)
    (models : List ModelInput) (iterations : Nat) :
    ∀ rem i prevResps tr res, i + rem = iterations →
      runRounds env o prompt models iterations rem i prevResps = (tr, res) →
      (∀ e ∈ tr, 0 < i → ∀ s ∈ prevResps, strSub s e.prompt) ∧
      (∀ e' ∈ tr, ∀ e ∈ tr, e'.round < e.round → ∀ t,
        env.respond e'.round e'.modelIdx e'.sample = Except.ok t →
        strSub (parseModelResponse t o).justification e.prompt) := by
  intro rem
  induction rem with
  | zero =>
    intro i prevResps tr res hinv h
    rw [runRounds] at h
    obtain ⟨h1, -⟩ := Prod.mk.injEq .. ▸ h
    constructor
    · intro e he
      rw [← h1] at he
      cases he
    · intro e' he'
      rw [← h1] at he'
      cases he'
  | succ rem ih =>
    intro i prevResps tr res hinv h
    obtain ⟨trM, resM, hM, hrest⟩ := runRounds_succ_inv h
    have hroundM : ∀ e ∈ trM, e.round = i := by
      intro e he
      obtain ⟨-, -, -, -, -, hr⟩ :=
        runModels_trace_models env o prompt i iterations models 0 prevResps trM resM hM e he
      exact hr
    have hcontM : ∀ e ∈ trM, 0 < i → ∀ s ∈ prevResps, strSub s e.prompt := by
      intro e he hi s hs
      exact runModels_prompts_contain env o prompt iterations hi models 0 prevResps trM resM hM
        e he s hs
    have honlyM : tr = trM →
        (∀ e ∈ tr, 0 < i → ∀ s ∈ prevResps, strSub s e.prompt) ∧
        (∀ e' ∈ tr, ∀ e ∈ tr, e'.round < e.round → ∀ t,
          env.respond e'.round e'.modelIdx e'.sample = Except.ok t →
          strSub (parseModelResponse t o).justification e.prompt) := by
      intro htr
      subst htr
      refine ⟨hcontM, ?_⟩
      intro e' he' e he hlt t ht
      rw [hroundM e' he', hroundM e he] at hlt
      omega
    rcases hrest with ⟨e0, hre, htr, hres⟩ | ⟨outs1, ws1, justs1, prevAdds1, hre, hrest⟩
    · exact honlyM htr
    · rcases hrest with ⟨hlast, hjb⟩ | ⟨hnl, tr2, res2, hR, htr, hres⟩
      · have htr : tr = trM := by
          rcases hjb with ⟨-, htr, -⟩ | ⟨-, hjb2⟩
          · exact htr
          · rcases hjb2 with ⟨msg2, -, htr, -⟩ | ⟨fj2, -, htr, -⟩ <;> exact htr
        exact honlyM htr
      · subst htr
        obtain ⟨iha, ihb⟩ := ih (i + 1) (prevResps ++ prevAdds1) tr2 res2 (by omega) hR
        have hbound2 : ∀ e ∈ tr2, i + 1 ≤ e.round ∧ e.round < iterations :=
          runRounds_round_bounds env o prompt models iterations rem (i + 1)
            (prevResps ++ prevAdds1) tr2 res2 (by omega) hR
        constructor
        · intro e he hi s hs
          rcases List.mem_append.mp he with he | he
          · exact hcontM e he hi s hs
          · exact iha e he (by omega) s (List.mem_append_left _ hs)
        · intro e' he' e he hlt t ht
          rcases List.mem_append.mp he' with he' | he'
          · rcases List.mem_append.mp he with he | he
            · rw [hroundM e' he', hroundM e he] at hlt
              omega
            · cases hj : ((parseModelResponse t o).justification == "") with
              | true =>
                rw [beq_iff_eq] at hj
                rw [hj]
                exact strSub_empty _
              | false =>
                have hlt2 : i < iterations - 1 := by omega
                obtain ⟨p, hp, hsub⟩ := runModels_just_in_ps env o prompt hlt2 models 0
                  prevResps trM outs1 ws1 justs1 prevAdds1 (hre ▸ hM) e' he' t ht hj
                exact strSub_trans hsub
                  (iha e he (by omega) p (List.mem_append_right _ hp))
          · rcases List.mem_append.mp he with he | he
            · have := hbound2 e' he'
              rw [hroundM e he] at hlt
              omega
            · exact ihb e' he' e he hlt t ht

/-- Inversion of the route handler. -/
theorem POST_inv {env : Env} {req : RankAndJustifyInput} {tr : List CallEvent}
    {res : Except ErrKind RankAndJustifyOutput} (h : POST env req = (tr, res)) :
    (((req.prompt == "") || req.models.isEmpty) = true ∧ tr = [] ∧
      res = Except.error ErrKind.invalidInput) ∨
    (((req.prompt == "") || req.models.isEmpty) = false ∧
      (qBle ((req.models.map ModelInput.weight).sum) (qOfNat 0) ||
        qBlt (qOfNat req.models.length) ((req.models.map ModelInput.weight).sum)) = true ∧
      tr = [] ∧ res = Except.error ErrKind.invalidWeights) ∨
    (((req.prompt == "") || req.models.isEmpty) = false ∧
      (qBle ((req.models.map ModelInput.weight).sum) (qOfNat 0) ||
        qBlt (qOfNat req.models.length) ((req.models.map ModelInput.weight).sum)) = false ∧
      ∃ res', runRounds env req.outcomes req.prompt req.models (effIterations req.iterations)
          (effIterations req.iterations) 0 [] = (tr, res') ∧
        ((∃ e, res' = Except.error e ∧ res = Except.error e) ∨
         (∃ agg outs ws fj, res' = Except.ok (agg, outs, ws, fj) ∧
           res = Except.ok ⟨finalScores req.outcomes agg, fj⟩))) := by
  rw [POST] at h
  cases hv : ((req.prompt == "") || req.models.isEmpty) with
  | true =>
    rw [if_pos hv] at h
    obtain ⟨h1, h2⟩ := Prod.mk.injEq .. ▸ h
    exact Or.inl ⟨rfl, h1.symm, h2.symm⟩
  | false =>
    rw [if_neg (by rw [hv]; simp)] at h
    cases hw : (qBle ((req.models.map ModelInput.weight).sum) (qOfNat 0) ||
        qBlt (qOfNat req.models.length) ((req.models.map ModelInput.weight).sum)) with
    | true =>
      rw [if_pos hw] at h
      obtain ⟨h1, h2⟩ := Prod.mk.injEq .. ▸ h
      exact Or.inr (Or.inl ⟨rfl, rfl, h1.symm, h2.symm⟩)
    | false =>
      rw [if_neg (by rw [hw]; simp)] at h
      rcases hR : runRounds env req.outcomes req.prompt req.models (effIterations req.iterations)
          (effIterations req.iterations) 0 [] with ⟨trR, resR⟩
      simp only [hR] at h
      cases resR with
      | error e =>
        obtain ⟨h1, h2⟩ := Prod.mk.injEq .. ▸ h
        exact Or.inr (Or.inr ⟨rfl, rfl, Except.error e, by rw [h1], Or.inl ⟨e, rfl, h2.symm⟩⟩)
      | ok v =>
        obtain ⟨agg, outs, ws, fj⟩ := v
        obtain ⟨h1, h2⟩ := Prod.mk.injEq .. ▸ h
        exact Or.inr (Or.inr ⟨rfl, rfl, Except.ok (agg, outs, ws, fj), by rw [h1],
          Or.inr ⟨agg, outs, ws, fj, rfl, h2.symm⟩⟩)

/-- C7: no partial results — (a) a successful request implies every
connector invocation in its trace returned a response that parsed to a
valid vote; (b) a connector failure at any invocation makes the whole
request fail with that provider error; (c) an unparseable response at
any invocation makes the whole request fail with a parse-failure error.
Error results carry no scores by construction. -/
theorem c7_fail_fast :
    (∀ (env : Env) (req : RankAndJustifyInput) tr out,
      POST env req = (tr, Except.ok out) →
      ∀ e ∈ tr, ∃ t dv, env.respond e.round e.modelIdx e.sample = Except.ok t ∧
        (parseModelResponse t req.outcomes).decisionVector = some dv) ∧
    (∀ (env : Env) (req : RankAndJustifyInput) tr res, POST env req = (tr, res) →
      ∀ e ∈ tr, ∀ msg, env.respond e.round e.modelIdx e.sample = Except.error msg →
        res = Except.error (ErrKind.providerError msg)) ∧
    (∀ (env : Env) (req : RankAndJustifyInput) tr res, POST env req = (tr, res) →
      ∀ e ∈ tr, ∀ t, env.respond e.round e.modelIdx e.sample = Except.ok t →
        (parseModelResponse t req.outcomes).decisionVector = none →
        ∃ md, res = Except.error (ErrKind.parseFailure md t)) := by
  refine ⟨?_, ?_, ?_⟩
  · intro env req tr out h e he
    rcases POST_inv h with ⟨-, htr, -⟩ | ⟨-, -, htr, -⟩ | ⟨-, -, res', hR, hbr⟩
    · subst htr; cases he
    · subst htr; cases he
    · rcases hbr with ⟨e0, hre, hres⟩ | ⟨agg, outs, ws, fj, hre, hres⟩
      · cases hres
      · exact runRounds_ok_calls env req.outcomes req.prompt req.models _ _ _ _ _ _
          (hre ▸ hR) e he
  · intro env req tr res h e he msg hmsg
    rcases POST_inv h with ⟨-, htr, -⟩ | ⟨-, -, htr, -⟩ | ⟨-, -, res', hR, hbr⟩
    · subst htr; cases he
    · subst htr; cases he
    · have := runRounds_respond_error env req.outcomes req.prompt req.models _ _ _ _ _ _
        hR e he msg hmsg
      rcases hbr with ⟨e0, hre, hres⟩ | ⟨agg, outs, ws, fj, hre, hres⟩
      · rw [hre] at this
        cases this
        exact hres
      · rw [hre] at this
        cases this
  · intro env req tr res h e he t ht hdv
    rcases POST_inv h with ⟨-, htr, -⟩ | ⟨-, -, htr, -⟩ | ⟨-, -, res', hR, hbr⟩
    · subst htr; cases he
    · subst htr; cases he
    · obtain ⟨md, hmd⟩ := runRounds_parse_error env req.outcomes req.prompt req.models _ _ _ _ _ _
        hR e he t ht hdv
      rcases hbr with ⟨e0, hre, hres⟩ | ⟨agg, outs, ws, fj, hre, hres⟩
      · rw [hre] at hmd
        cases hmd
        exact ⟨md, hres⟩
      · rw [hre] at hmd
        cases hmd

/-- A two-model environment in which both models answer with valid
legacy-format votes (the end-to-end scenario of the specification). -/
def envA : Env :=
  { providerOk := fun _ => true
    respond := fun _ j c =>
      if j == 0 then
        (if c == 0 then Except.ok "SCORE: 400000,600000\nJUSTIFICATION: a1"
         else Except.ok "SCORE: 420000,580000\nJUSTIFICATION: a2")
      else Except.ok "SCORE: 300000,700000\nJUSTIFICATION: b1"
    justifierOk := true
    justifierProviderName := "JustifierProvider"
    justify := fun _ => Except.ok "final" }

/-- The matching request: two outcomes, model A with two samples and
model B with one, both of weight one half, one round. -/
def reqA : RankAndJustifyInput :=
  { prompt := "p"
    outcomes := some ["o1", "o2"]
    models := [⟨"OpenAI", "m1", qOfNat 1 / qOfNat 2, some 2⟩,
               ⟨"Anthropic", "m2", qOfNat 1 / qOfNat 2, none⟩]
    iterations := none
    attachments := [] }

/-- The round-0 prompt of `reqA`. -/
def promptA : String := buildPrompt (some ["o1", "o2"]) "p" 0 []

/-- The trace of `POST envA reqA`. -/
def trA : List CallEvent := [⟨0, 0, 0, promptA⟩, ⟨0, 0, 1, promptA⟩, ⟨0, 1, 0, promptA⟩]

/-- The success payload of `POST envA reqA`: the spec's end-to-end
scenario composite. -/
def outA : RankAndJustifyOutput :=
  ⟨[⟨"o1", qOfNat 355000⟩, ⟨"o2", qOfNat 645000⟩], "final"⟩

/-- `POST envA reqA` evaluates to the expected trace and payload. -/
theorem POST_envA_reqA : POST envA reqA = (trA, Except.ok outA) := by
  have h1 : (POST envA reqA).1 = trA := by with_unfolding_all decide
  have h2 : (POST envA reqA).2 = Except.ok outA :=
    (resultBeq_iff _ _).mp (by with_unfolding_all decide)
  rw [← h1, ← h2]

/-- A two-model environment whose second model's connector throws. -/
def envB : Env :=
  { providerOk := fun _ => true
    respond := fun _ j _ =>
      if j == 0 then Except.ok "SCORE: 500000,500000\nJUSTIFICATION: a"
      else Except.error "boom"
    justifierOk := true
    justifierProviderName := "JustifierProvider"
    justify := fun _ => Except.ok "final" }

/-- A two-model single-round request without named outcomes. -/
def reqB : RankAndJustifyInput :=
  { prompt := "p"
    outcomes := none
    models := [⟨"OpenAI", "m1", qOfNat 1 / qOfNat 2, none⟩,
               ⟨"Anthropic", "m2", qOfNat 1 / qOfNat 2, none⟩]
    iterations := none
    attachments := [] }

/-- The round-0 prompt of `reqB`. -/
def promptB : String := buildPrompt none "p" 0 []

/-- The trace of `POST envB reqB`. -/
def trB : List CallEvent := [⟨0, 0, 0, promptB⟩, ⟨0, 1, 0, promptB⟩]

/-- `POST envB reqB` evaluates to the provider error after one
successful and one failing invocation. -/
theorem POST_envB_reqB :
    POST envB reqB = (trB, Except.error (ErrKind.providerError "boom")) := by
  have h1 : (POST envB reqB).1 = trB := by with_unfolding_all decide
  have h2 : (POST envB reqB).2 = Except.error (ErrKind.providerError "boom") :=
    (resultBeq_iff _ _).mp (by with_unfolding_all decide)
  rw [← h1, ← h2]

/-- A single-model environment whose response never parses. -/
def envC : Env :=
  { providerOk := fun _ => true
    respond := fun _ _ _ => Except.ok "garbage"
    justifierOk := true
    justifierProviderName := "JustifierProvider"
    justify := fun _ => Except.ok "final" }

/-- A single-model single-round request. -/
def reqC : RankAndJustifyInput :=
  { prompt := "p"
    outcomes := none
    models := [⟨"OpenAI", "m1", qOfNat 1 / qOfNat 2, none⟩]
    iterations := none
    attachments := [] }

/-- The trace of `POST envC reqC`. -/
def trC : List CallEvent := [⟨0, 0, 0, promptB⟩]

/-- `POST envC reqC` evaluates to the parse-failure error. -/
theorem POST_envC_reqC :
    POST envC reqC = (trC, Except.error (ErrKind.parseFailure "m1" "garbage")) := by
  have h1 : (POST envC reqC).1 = trC := by with_unfolding_all decide
  have h2 : (POST envC reqC).2 = Except.error (ErrKind.parseFailure "m1" "garbage") :=
    (resultBeq_iff _ _).mp (by with_unfolding_all decide)
  rw [← h1, ← h2]

/-- Witness for C7 at concrete runs: a successful two-model request has
only parsed invocations in its trace; a run whose second model throws
returns exactly that provider error; a run whose response never parses
returns a parse-failure error. -/
theorem c7_fail_fast_witness :
    (∃ t dv, envA.respond 0 0 0 = Except.ok t ∧
      (parseModelResponse t reqA.outcomes).decisionVector = some dv) ∧
    (Except.error (ErrKind.providerError "boom") : Except ErrKind RankAndJustifyOutput) =
      Except.error (ErrKind.providerError "boom") ∧
    (∃ md, (Except.error (ErrKind.parseFailure "m1" "garbage") :
        Except ErrKind RankAndJustifyOutput) =
      Except.error (ErrKind.parseFailure md "garbage")) :=
  ⟨c7_fail_fast.1 envA reqA trA outA POST_envA_reqA ⟨0, 0, 0, promptA⟩
      (List.mem_cons_self _ _),
   c7_fail_fast.2.1 envB reqB trB (Except.error (ErrKind.providerError "boom")) POST_envB_reqB
      ⟨0, 1, 0, promptB⟩ (by simp [trB]) "boom" rfl,
   c7_fail_fast.2.2 envC reqC trC (Except.error (ErrKind.parseFailure "m1" "garbage"))
      POST_envC_reqC ⟨0, 0, 0, promptB⟩ (List.mem_cons_self _ _) "garbage" rfl
      (by
        have h : parseModelResponse "garbage" reqC.outcomes = nullParsed :=
          (parsedBeq_iff _ _).mp (by with_unfolding_all decide)
        rw [h]; rfl)⟩

/-- Rationals with a false Boolean comparison are distinct. -/
theorem ne_of_qBeq_false {a b : ℚ} (h : qBeq a b = false) : a ≠ b := by
  intro he
  have ht : qBeq a b = true := qBeq_iff.mpr he
  rw [ht] at h
  cases h

/-- Inversion of the validation stage: a successful validation means a
score array and a string justification were present, every entry
coerced to a number, the length matched any named outcome set, and the
entries sum to exactly 1,000,000. -/
theorem validateResponse_ok_inv {r : JsVal} {outcomes : Option (List String)}
    {dv : List ℚ} {j : String} {sc : List ScoreOutcome}
    (hv : validateResponse r outcomes = Except.ok (dv, j, sc)) :
    ∃ scoreArr, r.getKey "score" = some (JsVal.arr scoreArr) ∧
      r.getKey "justification" = some (JsVal.str j) ∧
      (scoreArr.map jsToNumber).any Option.isNone = false ∧
      dv = (scoreArr.map jsToNumber).map (fun o => o.getD 0) ∧
      (∀ os, outcomes = some os → dv.length = os.length) ∧
      dv.sum = qOfNat 1000000 ∧ sc = mkScores dv outcomes := by
  cases outcomes with
  | none =>
    simp only [validateResponse] at hv
    split at hv
    · split at hv
      next scoreArr hscore =>
        split at hv
        next just hjust =>
          split at hv
          next hany => cases hv
          next hany =>
            split at hv
            next hlen => cases hv
            next hlen =>
              split at hv
              next hsum => cases hv
              next hsum =>
                simp only [Except.ok.injEq, Prod.mk.injEq] at hv
                obtain ⟨hdv, hj, hsc⟩ := hv
                refine ⟨scoreArr, hscore, hj ▸ hjust, by simpa using hany, hdv.symm,
                  fun os h => Option.noConfusion h, ?_, ?_⟩
                · rw [← hdv]
                  exact qBeq_iff.mp (by simpa using hsum)
                · rw [← hdv]
                  exact hsc.symm
        next hjust => cases hv
      next hscore => cases hv
    · cases hv
  | some os =>
    simp only [validateResponse] at hv
    split at hv
    · split at hv
      next scoreArr hscore =>
        split at hv
        next just hjust =>
          split at hv
          next hany => cases hv
          next hany =>
            split at hv
            next hlen => cases hv
            next hlen =>
              split at hv
              next hsum => cases hv
              next hsum =>
                simp only [Except.ok.injEq, Prod.mk.injEq] at hv
                obtain ⟨hdv, hj, hsc⟩ := hv
                refine ⟨scoreArr, hscore, hj ▸ hjust, by simpa using hany, hdv.symm,
                  ?_, ?_, ?_⟩
                · intro os2 h2
                  obtain rfl : os = os2 := Option.some.injEq .. ▸ h2
                  rw [← hdv]
                  simpa using hlen
                · rw [← hdv]
                  exact qBeq_iff.mp (by simpa using hsum)
                · rw [← hdv]
                  exact hsc.symm
        next hjust => cases hv
      next hscore => cases hv
    · cases hv

/-- C1: (a) when the extracted score vector has a non-numeric entry, or
its length differs from a provided outcome set, or its sum is not
exactly 1,000,000, `parseModelResponse` returns the null result — the
vector is never renormalized; (b) a response whose parse yields a null
decision vector makes the whole request fail with a parse-failure
error. -/
theorem c1_invalid_vote_rejected :
    (∀ (text : String) (outcomes : Option (List String)) (r : JsVal) (scoreArr : List JsVal),
      extractResponse text.data = some r →
      r.getKey "score" = some (JsVal.arr scoreArr) →
      ((scoreArr.map jsToNumber).any Option.isNone = true ∨
        (∃ os, outcomes = some os ∧
          ((scoreArr.map jsToNumber).map (fun o => o.getD 0)).length ≠ os.length) ∨
        ((scoreArr.map jsToNumber).map (fun o => o.getD 0)).sum ≠ qOfNat 1000000) →
      parseModelResponse text outcomes = nullParsed) ∧
    (∀ (env : Env) (req : RankAndJustifyInput) tr res, POST env req = (tr, res) →
      ∀ e ∈ tr, ∀ t, env.respond e.round e.modelIdx e.sample = Except.ok t →
        (parseModelResponse t req.outcomes).decisionVector = none →
        ∃ md, res = Except.error (ErrKind.parseFailure md t)) := by
  constructor
  · intro text outcomes r scoreArr hext hscore hbad
    cases hv : validateResponse r outcomes with
    | error msg => simp only [parseModelResponse, hext, hv]
    | ok v =>
      exfalso
      obtain ⟨dvv, jv, scv⟩ := v
      obtain ⟨s2, hscore2, -, hany, hdv, hlen, hsum, -⟩ := validateResponse_ok_inv hv
      rw [hscore] at hscore2
      have harr := Option.some.inj hscore2
      have hs : scoreArr = s2 := by injection harr
      subst hs
      rcases hbad with hb | ⟨os, ho, hb⟩ | hb
      · rw [hany] at hb
        cases hb
      · exact hb (hdv ▸ hlen os ho)
      · exact hb (hdv ▸ hsum)
  · intro env req tr res h e he t ht hdv
    rcases POST_inv h with ⟨-, htr, -⟩ | ⟨-, -, htr, -⟩ | ⟨-, -, res', hR, hbr⟩
    · subst htr; cases he
    · subst htr; cases he
    · obtain ⟨md, hmd⟩ := runRounds_parse_error env req.outcomes req.prompt req.models _ _ _ _ _ _
        hR e he t ht hdv
      rcases hbr with ⟨e0, hre, hres⟩ | ⟨agg, outs, ws, fj, hre, hres⟩
      · rw [hre] at hmd
        cases hmd
        exact ⟨md, hres⟩
      · rw [hre] at hmd
        cases hmd

/-- The object extracted from the legacy text `SCORE: 1,2` with
justification `x`. -/
def rW : JsVal :=
  JsVal.obj [("score", JsVal.arr [JsVal.num (qOfNat 1), JsVal.num (qOfNat 2)]),
    ("justification", JsVal.str "x")]

/-- Witness for C1 at concrete inputs: the legacy vote `SCORE: 1,2`
(sum 3 ≠ 1,000,000) parses to the null result, and the run whose model
answers `garbage` fails with a parse-failure error. -/
theorem c1_invalid_vote_rejected_witness :
    parseModelResponse "SCORE: 1,2\nJUSTIFICATION: x" none = nullParsed ∧
    (∃ md, (Except.error (ErrKind.parseFailure "m1" "garbage") :
        Except ErrKind RankAndJustifyOutput) =
      Except.error (ErrKind.parseFailure md "garbage")) :=
  ⟨c1_invalid_vote_rejected.1 "SCORE: 1,2\nJUSTIFICATION: x" none rW
      [JsVal.num (qOfNat 1), JsVal.num (qOfNat 2)] rfl rfl
      (Or.inr (Or.inr (ne_of_qBeq_false (by with_unfolding_all decide)))),
   c1_invalid_vote_rejected.2 envC reqC trC
      (Except.error (ErrKind.parseFailure "m1" "garbage"))
      POST_envC_reqC ⟨0, 0, 0, promptB⟩ (List.mem_cons_self _ _) "garbage" rfl
      (by
        have h : parseModelResponse "garbage" reqC.outcomes = nullParsed :=
          (parsedBeq_iff _ _).mp (by with_unfolding_all decide)
        rw [h]; rfl)⟩

/-- C2: (a) with one weight per model vector and uniform dimension, each
aggregate component is the weighted sum of the models' components
divided by the total weight; (b) every `score` value of a successful
request is the floor of the corresponding component of the final
round's aggregate. -/
theorem c2_weighted_aggregate :
    (∀ (vectors : List (List ℚ)) (weights : List ℚ),
      vectors.length = weights.length → vectors ≠ [] →
      ∀ d, (∀ v ∈ vectors, v.length = d) → ∀ k, k < d →
      (computeAverageVectors vectors weights).getD k 0 =
        ((List.range vectors.length).map (fun j =>
          (vectors.getD j []).getD k 0 * weights.getD j 0)).sum / weights.sum) ∧
    (∀ (env : Env) (req : RankAndJustifyInput) tr out,
      POST env req = (tr, Except.ok out) →
      ∃ agg outs ws, agg = computeAverageVectors outs ws ∧ outs.length = ws.length ∧
        out.scores.length = agg.length ∧
        ∀ k, k < agg.length →
          (out.scores.getD k ⟨"", qOfNat 0⟩).score = qOfInt ⌊agg.getD k 0⌋) := by
  constructor
  · intro vectors weights hlen hne d hdim k hk
    exact computeAverageVectors_getD vectors weights hlen hne d hdim hk
  · intro env req tr out h
    rcases POST_inv h with ⟨-, -, hres⟩ | ⟨-, -, -, hres⟩ | ⟨-, -, res', hR, hbr⟩
    · cases hres
    · cases hres
    · rcases hbr with ⟨e0, hre, hres⟩ | ⟨agg, outs, ws, fj, hre, hres⟩
      · cases hres
      · obtain ⟨hagg, hlen⟩ := runRounds_ok_agg env req.outcomes req.prompt req.models _ _ _ _ _
          agg outs ws fj (hre ▸ hR)
        have hout : out = ⟨finalScores req.outcomes agg, fj⟩ := Except.ok.inj hres
        refine ⟨agg, outs, ws, hagg, hlen, ?_, ?_⟩
        · rw [hout]
          cases req.outcomes <;> simp [finalScores]
        · intro k hk
          rw [hout]
          cases req.outcomes with
          | some os =>
            simp only [finalScores]
            rw [getD_range_map _ _ hk]
          | none =>
            simp only [finalScores]
            rw [getD_map_lt hk (0 : ℚ) (⟨"", qOfNat 0⟩ : ScoreOutcome)]

/-- Witness for C2 at concrete inputs: the two-vector one-dimensional
aggregate with unit weights, and the end-to-end scenario's result. -/
theorem c2_weighted_aggregate_witness :
    ((computeAverageVectors [[qOfNat 2], [qOfNat 4]] [qOfNat 1, qOfNat 1]).getD 0 0 =
      ((List.range ([[qOfNat 2], [qOfNat 4]] : List (List ℚ)).length).map (fun j =>
        (([[qOfNat 2], [qOfNat 4]] : List (List ℚ)).getD j []).getD 0 0 *
          ([qOfNat 1, qOfNat 1] : List ℚ).getD j 0)).sum /
        ([qOfNat 1, qOfNat 1] : List ℚ).sum) ∧
    (∃ agg outs ws, agg = computeAverageVectors outs ws ∧ outs.length = ws.length ∧
      outA.scores.length = agg.length ∧
      ∀ k, k < agg.length → (outA.scores.getD k ⟨"", qOfNat 0⟩).score = qOfInt ⌊agg.getD k 0⌋) :=
  ⟨c2_weighted_aggregate.1 [[qOfNat 2], [qOfNat 4]] [qOfNat 1, qOfNat 1] rfl (by simp) 1
      (by intro v hv; fin_cases hv <;> rfl) 0 (by omega),
   c2_weighted_aggregate.2 envA reqA trA outA POST_envA_reqA⟩

/-- Every event of a round-loop trace belongs to a listed model whose
per-model check (provider, model, weight bounds) passed. -/
theorem runRounds_trace_models (env : Env) (o : Option (List String)) (prompt : String)
    (models : List ModelInput) (iterations : Nat) :
    ∀ rem i prevResps tr res,
      runRounds env o prompt models iterations rem i prevResps = (tr, res) →
      ∀ e ∈ tr, ∃ mi, models.get? e.modelIdx = some mi ∧ modelCheckFails mi = false := by
  intro rem
  induction rem with
  | zero =>
    intro i prevResps tr res h e he
    rw [runRounds] at h
    obtain ⟨h1, -⟩ := Prod.mk.injEq .. ▸ h
    rw [← h1] at he
    cases he
  | succ rem ih =>
    intro i prevResps tr res h e he
    obtain ⟨trM, resM, hM, hrest⟩ := runRounds_succ_inv h
    have hmodel : e ∈ trM →
        ∃ mi, models.get? e.modelIdx = some mi ∧ modelCheckFails mi = false := by
      intro heM
      obtain ⟨idx, mi, hget, hmidx, hcheck, -⟩ :=
        runModels_trace_models env o prompt i iterations models 0 prevResps trM resM hM e heM
      exact ⟨mi, by rw [hmidx]; simpa using hget, hcheck⟩
    rcases hrest with ⟨e0, hre, htr, hres⟩ | ⟨outs1, ws1, justs1, prevAdds1, hre, hrest⟩
    · subst htr
      exact hmodel he
    · rcases hrest with ⟨hlast, hjb⟩ | ⟨hnl, tr2, res2, hR, htr, hres⟩
      · have htr : tr = trM := by
          rcases hjb with ⟨-, htr, -⟩ | ⟨-, hjb2⟩
          · exact htr
          · rcases hjb2 with ⟨msg2, -, htr, -⟩ | ⟨fj2, -, htr, -⟩ <;> exact htr
        subst htr
        exact hmodel he
      · subst htr
        rcases List.mem_append.mp he with he | he
        · exact hmodel he
        · exact ih (i + 1) (prevResps ++ prevAdds1) tr2 res2 hR e he

/-- A two-model request whose second model's weight exceeds one while
the weight sum still passes the total check. -/
def reqD : RankAndJustifyInput :=
  { prompt := "p"
    outcomes := none
    models := [⟨"OpenAI", "m1", qOfNat 1 / qOfNat 2, none⟩,
               ⟨"Anthropic", "m2", qOfNat 3 / qOfNat 2, none⟩]
    iterations := none
    attachments := [] }

/-- Counterexample to C6: with weights `[1/2, 3/2]` (sum `2`, within the
total-weight bounds) the first model is invoked — network activity
happens — before the second model's out-of-range weight is detected,
and only then is the request rejected with the invalid-model error. The
per-model weight check runs inside the model loop, not before it. -/
theorem c6_weight_validation_counterexample :
    (POST envB reqD).1 = [⟨0, 0, 0, promptB⟩] ∧
    (POST envB reqD).2 = Except.error ErrKind.invalidModel :=
  ⟨by with_unfolding_all decide, (resultBeq_iff _ _).mp (by with_unfolding_all decide)⟩

/-- C6 (amended): (a) when the total-weight check fails, the request is
rejected with no connector invocation; (b) any request with network
activity passed the total-weight bounds; (c) every invoked model's own
weight lies in `[0, 1]` — but a model may be invoked before a *later*
model's weight is checked. -/
theorem c6_weight_validation_amended :
    (∀ (env : Env) (req : RankAndJustifyInput) tr res, POST env req = (tr, res) →
      (qBle ((req.models.map ModelInput.weight).sum) (qOfNat 0) ||
        qBlt (qOfNat req.models.length) ((req.models.map ModelInput.weight).sum)) = true →
      tr = []) ∧
    (∀ (env : Env) (req : RankAndJustifyInput) tr res, POST env req = (tr, res) → tr ≠ [] →
      qOfNat 0 < (req.models.map ModelInput.weight).sum ∧
        (req.models.map ModelInput.weight).sum ≤ qOfNat req.models.length) ∧
    (∀ (env : Env) (req : RankAndJustifyInput) tr res, POST env req = (tr, res) →
      ∀ e ∈ tr, ∃ mi, req.models.get? e.modelIdx = some mi ∧
        qOfNat 0 ≤ mi.weight ∧ mi.weight ≤ qOfNat 1) := by
  refine ⟨?_, ?_, ?_⟩
  · intro env req tr res h hsum
    rcases POST_inv h with ⟨-, htr, -⟩ | ⟨-, -, htr, -⟩ | ⟨-, hw, -⟩
    · exact htr
    · exact htr
    · rw [hsum] at hw
      cases hw
  · intro env req tr res h htr
    rcases POST_inv h with ⟨-, htr2, -⟩ | ⟨-, -, htr2, -⟩ | ⟨-, hw, -⟩
    · exact absurd htr2 htr
    · exact absurd htr2 htr
    · have hw1 : qBle ((req.models.map ModelInput.weight).sum) (qOfNat 0) = false := by
        cases hx : qBle ((req.models.map ModelInput.weight).sum) (qOfNat 0)
        · rfl
        · rw [hx] at hw; cases hw
      have hw2 : qBlt (qOfNat req.models.length) ((req.models.map ModelInput.weight).sum) = false := by
        cases hx : qBlt (qOfNat req.models.length) ((req.models.map ModelInput.weight).sum)
        · rfl
        · rw [hx] at hw; simp at hw
      constructor
      · by_contra hc
        push_neg at hc
        rw [(qBle_iff).mpr hc] at hw1
        cases hw1
      · by_contra hc
        push_neg at hc
        rw [(qBlt_iff).mpr hc] at hw2
        cases hw2
  · intro env req tr res h e he
    rcases POST_inv h with ⟨-, htr, -⟩ | ⟨-, -, htr, -⟩ | ⟨-, -, res', hR, -⟩
    · subst htr; cases he
    · subst htr; cases he
    · obtain ⟨mi, hget, hcheck⟩ := runRounds_trace_models env req.outcomes req.prompt req.models
        _ _ _ _ _ _ hR e he
      refine ⟨mi, hget, ?_, ?_⟩
      · have h1 : qBlt mi.weight (qOfNat 0) = false := by
          rcases Bool.or_eq_false_iff.mp hcheck with ⟨h12, -⟩
          rcases Bool.or_eq_false_iff.mp h12 with ⟨h11, hx⟩
          exact hx
        by_contra hc
        push_neg at hc
        rw [(qBlt_iff).mpr hc] at h1
        cases h1
      · have h2 : qBlt (qOfNat 1) mi.weight = false :=
          (Bool.or_eq_false_iff.mp hcheck).2
        by_contra hc
        push_neg at hc
        rw [(qBlt_iff).mpr hc] at h2
        cases h2

/-- A single-model request whose weight — and so the total weight — is
zero, tripping the total-weight check. -/
def reqE : RankAndJustifyInput :=
  { prompt := "p"
    outcomes := none
    models := [⟨"OpenAI", "m1", qOfNat 0, none⟩]
    iterations := none
    attachments := [] }

/-- Witness for the amended C6 at concrete runs: the zero-weight-sum
request produces no network activity; the successful scenario's weight
sum lies in bounds; its first invocation's model weight lies in
`[0, 1]`. -/
theorem c6_weight_validation_amended_witness :
    (POST envC reqE).1 = [] ∧
    (qOfNat 0 < (reqA.models.map ModelInput.weight).sum ∧
      (reqA.models.map ModelInput.weight).sum ≤ qOfNat reqA.models.length) ∧
    (∃ mi, reqA.models.get? (0 : Nat) = some mi ∧
      qOfNat 0 ≤ mi.weight ∧ mi.weight ≤ qOfNat 1) :=
  ⟨c6_weight_validation_amended.1 envC reqE (POST envC reqE).1 (POST envC reqE).2 rfl
      (by with_unfolding_all decide),
   c6_weight_validation_amended.2.1 envA reqA trA (Except.ok outA) POST_envA_reqA
      (by simp [trA]),
   c6_weight_validation_amended.2.2 envA reqA trA (Except.ok outA) POST_envA_reqA
      ⟨0, 0, 0, promptA⟩ (List.mem_cons_self _ _)⟩

/-- Boolean test that the first list starts the second. -/
def listPrefB : List Char → List Char → Bool
  | [], _ => true
  | _ :: _, [] => false
  | a :: l, b :: r => a == b && listPrefB l r

/-- Boolean test that the first list occurs inside the second. -/
def listSubB (l : List Char) : List Char → Bool
  | [] => l.isEmpty
  | b :: rt => listPrefB l (b :: rt) || listSubB l rt

/-- A true prefix test yields a completing tail. -/
theorem listPrefB_exists : ∀ {l r : List Char}, listPrefB l r = true → ∃ t, l ++ t = r
  | [], r, _ => ⟨r, rfl⟩
  | a :: l, b :: r, h => by
    rw [listPrefB, Bool.and_eq_true, beq_iff_eq] at h
    obtain ⟨h1, h2⟩ := h
    subst h1
    obtain ⟨t, ht⟩ := listPrefB_exists h2
    exact ⟨t, by rw [List.cons_append, ht]⟩

/-- A true occurrence test yields an infix decomposition. -/
theorem listSubB_isInfix : ∀ {l r : List Char}, listSubB l r = true → l <:+: r
  | l, [], h => by
    rw [listSubB] at h
    rw [List.isEmpty_iff.mp h]
  | l, b :: rt, h => by
    rw [listSubB, Bool.or_eq_true] at h
    rcases h with h | h
    · obtain ⟨t, ht⟩ := listPrefB_exists h
      exact ⟨[], t, by simpa using ht⟩
    · obtain ⟨s, t, hst⟩ := listSubB_isInfix h
      exact ⟨b :: s, t, by rw [← hst]; rfl⟩

/-- String containment follows from the Boolean occurrence test. -/
theorem strSub_of_listSubB {a b : String} (h : listSubB a.data b.data = true) : strSub a b :=
  listSubB_isInfix h

/-- A single-model environment answering a valid full-weight vote whose
justification names the round it was produced in. -/
def envF : Env :=
  { providerOk := fun _ => true
    respond := fun i _ _ => Except.ok ("SCORE: 1000000\nJUSTIFICATION: J" ++ toString i)
    justifierOk := true
    justifierProviderName := "JustifierProvider"
    justify := fun _ => Except.ok "final" }

/-- A single-model three-round request. -/
def reqF : RankAndJustifyInput :=
  { prompt := "p"
    outcomes := none
    models := [⟨"OpenAI", "m1", qOfNat 1, none⟩]
    iterations := some 3
    attachments := [] }

/-- The formatted feedback entry accumulated from round 0 of
`POST envF reqF`. -/
def fr0F : String := formattedResponse "OpenAI" "m1" [qOfNat 1000000] "J0"

/-- The formatted feedback entry accumulated from round 1 of
`POST envF reqF`. -/
def fr1F : String := formattedResponse "OpenAI" "m1" [qOfNat 1000000] "J1"

/-- The trace of `POST envF reqF`: one call per round, with the feedback
entries of all earlier rounds accumulated into each prompt. -/
def trF : List CallEvent :=
  [⟨0, 0, 0, buildPrompt none "p" 0 []⟩,
   ⟨1, 0, 0, buildPrompt none "p" 1 [fr0F]⟩,
   ⟨2, 0, 0, buildPrompt none "p" 2 [fr0F, fr1F]⟩]

/-- The success payload of `POST envF reqF`. -/
def outF : RankAndJustifyOutput := ⟨[⟨"unnamed", qOfNat 1000000⟩], "final"⟩

/-- `POST envF reqF` evaluates to the expected trace and payload. -/
theorem POST_envF_reqF : POST envF reqF = (trF, Except.ok outF) := by
  have h1 : (POST envF reqF).1 = trF := by with_unfolding_all decide
  have h2 : (POST envF reqF).2 = Except.ok outF :=
    (resultBeq_iff _ _).mp (by with_unfolding_all decide)
  rw [← h1, ← h2]

/-- Counterexample to C5: in the three-round run of `envF`, the round-2
prompt still contains the justification `J0` produced in round 0 — two
rounds earlier, not the previous round. `previousIterationResponses` is
never cleared between rounds, so feedback accumulates from *all* earlier
rounds, not only from round `i − 1`. -/
theorem c5_feedback_counterexample :
    ∃ e ∈ (POST envF reqF).1, e.round = 2 ∧
      envF.respond 0 0 0 = Except.ok "SCORE: 1000000\nJUSTIFICATION: J0" ∧
      (parseModelResponse "SCORE: 1000000\nJUSTIFICATION: J0" none).justification = "J0" ∧
      strSub "J0" e.prompt := by
  refine ⟨⟨2, 0, 0, buildPrompt none "p" 2 [fr0F, fr1F]⟩, ?_, rfl, rfl, ?_, ?_⟩
  · rw [POST_envF_reqF]
    simp [trF]
  · have h : parseModelResponse "SCORE: 1000000\nJUSTIFICATION: J0" none =
        ⟨some [qOfNat 1000000], "J0", [⟨"outcome1", qOfNat 1000000⟩]⟩ :=
      (parsedBeq_iff _ _).mp (by with_unfolding_all decide)
    rw [h]
  · exact strSub_of_listSubB (by with_unfolding_all decide)

/-- C5 (amended): the feedback of *every* earlier round — not only the
previous one — reaches every later round's prompt: if two invocations of
one request have increasing round indices, the justification parsed from
the earlier invocation's response is contained in the later invocation's
prompt. -/
theorem c5_feedback_amended :
    ∀ (env : Env) (req : RankAndJustifyInput) tr res, POST env req = (tr, res) →
      ∀ e' ∈ tr, ∀ e ∈ tr, e'.round < e.round → ∀ t,
        env.respond e'.round e'.modelIdx e'.sample = Except.ok t →
        strSub (parseModelResponse t req.outcomes).justification e.prompt := by
  intro env req tr res h e' he' e he hlt t ht
  rcases POST_inv h with ⟨-, htr, -⟩ | ⟨-, -, htr, -⟩ | ⟨-, -, res', hR, -⟩
  · subst htr; cases he'
  · subst htr; cases he'
  · exact (runRounds_cross_round env req.outcomes req.prompt req.models
      (effIterations req.iterations) (effIterations req.iterations) 0 [] tr res'
      (by omega) hR).2 e' he' e he hlt t ht

/-- Witness for the amended C5 at the concrete three-round run: the
round-0 justification is contained in the round-2 prompt. -/
theorem c5_feedback_amended_witness :
    strSub (parseModelResponse "SCORE: 1000000\nJUSTIFICATION: J0" none).justification
      (buildPrompt none "p" 2 [fr0F, fr1F]) :=
  c5_feedback_amended envF reqF trF (Except.ok outF) POST_envF_reqF
    ⟨0, 0, 0, buildPrompt none "p" 0 []⟩ (List.mem_cons_self _ _)
    ⟨2, 0, 0, buildPrompt none "p" 2 [fr0F, fr1F]⟩ (by simp [trF])
    (by decide) "SCORE: 1000000\nJUSTIFICATION: J0" rfl

/-- A `List.range`-mapped list sum as a `Finset.range` sum. -/
theorem listSumRange (f : Nat → ℚ) (n : Nat) :
    ((List.range n).map f).sum = ∑ j in Finset.range n, f j := by
  induction n with
  | zero => simp
  | succ n ih =>
    rw [List.range_succ, List.map_append, List.sum_append, Finset.sum_range_succ, ih]
    simp

/-- A list sum as the sum of its positional reads. -/
theorem list_sum_getD (l : List ℚ) :
    ((List.range l.length).map (fun j => l.getD j 0)).sum = l.sum := by
  induction l with
  | nil => simp
  | cons a t ih =>
    have hf : ((fun j => (a :: t).getD j 0) ∘ Nat.succ) = fun j => t.getD j 0 := by
      funext j
      simp [Function.comp, List.getD_cons_succ]
    rw [List.length_cons, List.range_succ_eq_map, List.map_cons, List.map_map, hf,
      List.getD_cons_zero, List.sum_cons, ih, List.sum_cons]

/-- C8: (a) with nonnegative weights of positive sum, when each
per-model vector deviates from its exact (unfloored) counterpart by at
most one in each component — the flooring drift of the sample stage —
the aggregate deviates from the exact weighted mean by at most
`num_models` per component (in parts-per-million units); (b) concretely,
flooring makes a per-model average of vectors that each sum to exactly
1,000,000 lose that property, and the final aggregate's sum is not
restored to 1,000,000 by any renormalization pass. -/
theorem c8_no_renormalization :
    (∀ (vs ms : List (List ℚ)) (ws : List ℚ) (d : Nat),
      vs.length = ws.length → ms.length = vs.length → vs ≠ [] →
      (∀ v ∈ vs, v.length = d) →
      (∀ w ∈ ws, 0 ≤ w) → 0 < ws.sum →
      (∀ j, j < vs.length → ∀ k, k < d →
        |(vs.getD j []).getD k 0 - (ms.getD j []).getD k 0| ≤ 1) →
      ∀ k, k < d →
      |(computeAverageVectors vs ws).getD k 0 -
        ((List.range vs.length).map (fun j =>
          (ms.getD j []).getD k 0 * ws.getD j 0)).sum / ws.sum| ≤ qOfNat vs.length) ∧
    (modelAverage 2 [[qOfNat 500001, qOfNat 499999], [qOfNat 500000, qOfNat 500000]] =
      [qOfNat 500000, qOfNat 499999] ∧
     ([qOfNat 500001, qOfNat 499999] : List ℚ).sum = qOfNat 1000000 ∧
     ([qOfNat 500000, qOfNat 500000] : List ℚ).sum = qOfNat 1000000 ∧
     (computeAverageVectors [[qOfNat 500000, qOfNat 499999], [qOfNat 500000, qOfNat 500000]]
        [qOfNat 1 / qOfNat 2, qOfNat 1 / qOfNat 2]).sum ≠ qOfNat 1000000) := by
  constructor
  · intro vs ms ws d hlen hmlen hne hdim hwnn hwpos hdrift k hk
    rw [computeAverageVectors_getD vs ws hlen hne d hdim hk]
    rw [div_sub_div_same, abs_div, abs_of_pos hwpos, div_le_iff₀ hwpos]
    have hAB : ((List.range vs.length).map (fun j =>
          (vs.getD j []).getD k 0 * ws.getD j 0)).sum -
        ((List.range vs.length).map (fun j =>
          (ms.getD j []).getD k 0 * ws.getD j 0)).sum =
        ∑ j in Finset.range vs.length,
          (((vs.getD j []).getD k 0 - (ms.getD j []).getD k 0) * ws.getD j 0) := by
      rw [listSumRange, listSumRange, ← Finset.sum_sub_distrib]
      exact Finset.sum_congr rfl (fun j _ => by ring)
    rw [hAB]
    have hterm : ∀ j ∈ Finset.range vs.length,
        |((vs.getD j []).getD k 0 - (ms.getD j []).getD k 0) * ws.getD j 0| ≤ ws.getD j 0 := by
      intro j hj
      rw [Finset.mem_range] at hj
      have hw : 0 ≤ ws.getD j 0 := by
        have hjw : j < ws.length := hlen ▸ hj
        have hmem : ws.getD j 0 ∈ ws := by
          rw [List.getD_eq_getElem?_getD, List.getElem?_eq_getElem hjw]
          exact List.getElem_mem hjw
        exact hwnn _ hmem
      rw [abs_mul, abs_of_nonneg hw]
      calc |(vs.getD j []).getD k 0 - (ms.getD j []).getD k 0| * ws.getD j 0
          ≤ 1 * ws.getD j 0 := mul_le_mul_of_nonneg_right (hdrift j hj k hk) hw
        _ = ws.getD j 0 := one_mul _
    calc |∑ j in Finset.range vs.length,
            (((vs.getD j []).getD k 0 - (ms.getD j []).getD k 0) * ws.getD j 0)|
        ≤ ∑ j in Finset.range vs.length,
            |((vs.getD j []).getD k 0 - (ms.getD j []).getD k 0) * ws.getD j 0| :=
          Finset.abs_sum_le_sum_abs _ _
      _ ≤ ∑ j in Finset.range vs.length, ws.getD j 0 := Finset.sum_le_sum hterm
      _ = ws.sum := by rw [hlen, ← listSumRange]; exact list_sum_getD ws
      _ ≤ qOfNat vs.length * ws.sum := by
          have hn1 : (1 : ℚ) ≤ qOfNat vs.length := by
            rw [qOfNat_eq_cast]
            exact_mod_cast List.length_pos.mpr hne
          exact le_mul_of_one_le_left hwpos.le hn1
  · refine ⟨(listBeqF_iff (fun u v => qBeq_iff) _ _).mp (by with_unfolding_all decide),
      qBeq_iff.mp (by with_unfolding_all decide),
      qBeq_iff.mp (by with_unfolding_all decide),
      ne_of_qBeq_false (by with_unfolding_all decide)⟩

/-- Witness for C8 at a concrete instance: one model whose floored
vector `[499999]` deviates from the exact mean `[999999/2]` by one half,
aggregated with unit weight. -/
theorem c8_no_renormalization_witness :
    |(computeAverageVectors [[qOfNat 499999]] [qOfNat 1]).getD 0 0 -
      ((List.range ([[qOfNat 499999]] : List (List ℚ)).length).map (fun j =>
        (([[qOfNat 999999 / qOfNat 2]] : List (List ℚ)).getD j []).getD 0 0 *
          ([qOfNat 1] : List ℚ).getD j 0)).sum / ([qOfNat 1] : List ℚ).sum| ≤
      qOfNat ([[qOfNat 499999]] : List (List ℚ)).length :=
  c8_no_renormalization.1 [[qOfNat 499999]] [[qOfNat 999999 / qOfNat 2]] [qOfNat 1] 1
    rfl rfl (by simp)
    (by intro v hv; fin_cases hv; rfl)
    (by
      intro w hw
      fin_cases hw
      rw [qOfNat_eq_cast]
      norm_num)
    (by
      rw [List.sum_singleton, qOfNat_eq_cast]
      norm_num)
    (by
      intro j hj k hk
      simp only [List.length_singleton] at hj
      obtain rfl : j = 0 := by omega
      obtain rfl : k = 0 := by omega
      show |qOfNat 499999 - qOfNat 999999 / qOfNat 2| ≤ 1
      rw [qOfNat_eq_cast, qOfNat_eq_cast, qOfNat_eq_cast, abs_le]
      refine ⟨by norm_num, by norm_num⟩)
    0 (by omega)

/-- C10: absent or zero `iterations` and `count` normalize to one
(`iterations || 1`, `count || 1`) instead of being rejected: (a) the
normalizations themselves; (b) the route treats an absent or zero
iteration count exactly like an explicit 1; (c) a model with absent or
zero count is sampled exactly once — its sample loop makes exactly one
connector invocation; (d) a request carrying an absent iteration count
and an absent sample count succeeds. -/
theorem c10_default_normalization :
    (effIterations none = 1 ∧ effIterations (some 0) = 1 ∧ effIterations (some 1) = 1 ∧
     effCount none = 1 ∧ effCount (some 0) = 1 ∧ effCount (some 1) = 1) ∧
    (∀ (env : Env) (p : String) (o : Option (List String)) (ms : List ModelInput)
        (atts : List String),
      POST env ⟨p, o, ms, none, atts⟩ = POST env ⟨p, o, ms, some 1, atts⟩ ∧
      POST env ⟨p, o, ms, some 0, atts⟩ = POST env ⟨p, o, ms, some 1, atts⟩) ∧
    (∀ (env : Env) (o : Option (List String)) (pv md pr : String) (i j c : Nat) (pp : Bool),
      (runSamples env o pv md pr i j pp (effCount none) c).1 = [⟨i, j, c, pr⟩] ∧
      (runSamples env o pv md pr i j pp (effCount (some 0)) c).1 = [⟨i, j, c, pr⟩]) ∧
    POST envA reqA = (trA, Except.ok outA) := by
  refine ⟨⟨rfl, rfl, rfl, rfl, rfl, rfl⟩, ?_, ?_, POST_envA_reqA⟩
  · intro env p o ms atts
    exact ⟨rfl, rfl⟩
  · intro env o pv md pr i j c pp
    have h1 : (runSamples env o pv md pr i j pp 1 c).1 = [⟨i, j, c, pr⟩] := by
      rw [show (1 : Nat) = Nat.succ 0 from rfl, runSamples]
      cases h : env.respond i j c with
      | error msg => rfl
      | ok t =>
        cases hd : (parseModelResponse t o).decisionVector with
        | none => simp [hd]
        | some dv => simp [hd, runSamples]
    exact ⟨h1, h1⟩
